import Mathlib

/-!
# fty-common-rest: error catalog, key resolver, index-based raise, JSON encoder
and audit log context

A shallow embedding of `include/fty_common_rest_utils_web.h` and of
`src/fty_common_rest_audit_log.cc`.

Conventions of the embedding
* a `char` is a Lean `Char`; the code only compares characters for equality and
  tests them against NUL, so the size of the alphabet plays no role;
* a `std::string` is a Lean `String` (its `data` is the sequence of `char`s);
* a `const char*` is an `Option String`: `none` is the null pointer, `some s`
  points at the characters of `s` followed by the terminating NUL.  When `s`
  itself holds a NUL the C string ends there (`c_str`);
* machine integers are `Int`/`Nat` with explicit wrap-around conversions
  (`int64_t`, `uint32_t`, `size_t`);
* a failed `static_assert`, and an exception leaving a function, are values of
  `Failure` in an `Except`;
* the calls to the logger (`log_error`, `log_warning`, `log_trace`) write to the
  log only and are left out; `free` and the allocation in `_die_asprintf` are not
  modelled.
-/

namespace FtyCommonRest

/-! ## Machine integers -/

/-- Conversion to `int64_t`: the value modulo `2^64`, taken in `[-2^63, 2^63)`. -/
def int64_t (x : Int) : Int := (x + 2 ^ 63) % 2 ^ 64 - 2 ^ 63

/-- Conversion to `uint32_t`: the value modulo `2^32`. -/
def uint32_t (x : Int) : Nat := (x % 2 ^ 32).toNat

/-- Conversion to `size_t` (64 bit): the value modulo `2^64`. -/
def size_t (x : Int) : Nat := (x % 2 ^ 64).toNat

/-- The constant `INT_MIN` of `<climits>` for a 32-bit `int`. -/
def INT_MIN : Int := -2147483648

/-! ## The error catalog -/

/-- The struct `_WSError`. -/
structure _WSError where
  /-- short key for compile time dispatch -/
  key : String
  /-- HTTP reply code -/
  http_code : Int
  /-- sw internal error code -/
  err_code : Int
  /-- message explaining the error, with printf like formatting chars -/
  message : String
deriving DecidableEq, Repr

/-- The constant `_WSErrorsCOUNT`. -/
def _WSErrorsCOUNT : Nat := 18

/-- The local macro `HTTP_TEAPOT` (RFC 2324). -/
def HTTP_TEAPOT : Int := 418

/-- Modelled from the spec: the HTTP status macros of `tnt/http.h`, which is not
part of the sources; the spec lists the status codes in use (400, 401, 403, 404,
405, 409, 412, 413, 500, 502) and these are their standard names. -/
def HTTP_BAD_REQUEST : Int := 400

/-- Modelled from the spec: see `HTTP_BAD_REQUEST`. -/
def HTTP_UNAUTHORIZED : Int := 401

/-- Modelled from the spec: see `HTTP_BAD_REQUEST`. -/
def HTTP_FORBIDDEN : Int := 403

/-- Modelled from the spec: see `HTTP_BAD_REQUEST`. -/
def HTTP_NOT_FOUND : Int := 404

/-- Modelled from the spec: see `HTTP_BAD_REQUEST`. -/
def HTTP_METHOD_NOT_ALLOWED : Int := 405

/-- Modelled from the spec: see `HTTP_BAD_REQUEST`. -/
def HTTP_CONFLICT : Int := 409

/-- Modelled from the spec: see `HTTP_BAD_REQUEST`. -/
def HTTP_PRECONDITION_FAILED : Int := 412

/-- Modelled from the spec: see `HTTP_BAD_REQUEST`. -/
def HTTP_REQUEST_ENTITY_TOO_LARGE : Int := 413

/-- Modelled from the spec: see `HTTP_BAD_REQUEST`. -/
def HTTP_INTERNAL_SERVER_ERROR : Int := 500

/-- Modelled from the spec: see `HTTP_BAD_REQUEST`. -/
def HTTP_BAD_GATEWAY : Int := 502

/-- Modelled from the spec: the macro `TRANSLATE_ME_IGNORE_PARAMS` of
`fty_common_macros.h`, which is not part of the sources; the spec takes the
literal it wraps as the message template of the entry. -/
def TRANSLATE_ME_IGNORE_PARAMS (message : String) : String := message

/-- The table `_errors`. -/
def _errors : List _WSError := [
  ⟨"undefined",              HTTP_TEAPOT,                   INT_MIN, TRANSLATE_ME_IGNORE_PARAMS "I'm a teapot!"⟩,
  ⟨"internal-error",         HTTP_INTERNAL_SERVER_ERROR,    42,      TRANSLATE_ME_IGNORE_PARAMS "Internal Server Error. %s"⟩,
  ⟨"not-authorized",         HTTP_UNAUTHORIZED,             43,      TRANSLATE_ME_IGNORE_PARAMS "You are not authenticated or your rights are insufficient."⟩,
  ⟨"element-not-found",      HTTP_NOT_FOUND,                44,      TRANSLATE_ME_IGNORE_PARAMS "Element '%s' not found."⟩,
  ⟨"method-not-allowed",     HTTP_METHOD_NOT_ALLOWED,       45,      TRANSLATE_ME_IGNORE_PARAMS "Http method '%s' not allowed."⟩,
  ⟨"request-param-required", HTTP_BAD_REQUEST,              46,      TRANSLATE_ME_IGNORE_PARAMS "Parameter '%s' is required."⟩,
  ⟨"request-param-bad",      HTTP_BAD_REQUEST,              47,      TRANSLATE_ME_IGNORE_PARAMS "Parameter '%s' has bad value. Received %s. Expected %s."⟩,
  ⟨"bad-request-document",   HTTP_BAD_REQUEST,              48,      TRANSLATE_ME_IGNORE_PARAMS "Request document has invalid syntax. %s"⟩,
  ⟨"data-conflict",          HTTP_CONFLICT,                 50,      TRANSLATE_ME_IGNORE_PARAMS "Element '%s' cannot be processed because of conflict. %s"⟩,
  ⟨"action-forbidden",       HTTP_FORBIDDEN,                51,      TRANSLATE_ME_IGNORE_PARAMS "%s is forbidden. %s"⟩,
  ⟨"parameter-conflict",     HTTP_BAD_REQUEST,              52,      TRANSLATE_ME_IGNORE_PARAMS "Request cannot be processed because of conflict in parameters. %s"⟩,
  ⟨"content-too-big",        HTTP_REQUEST_ENTITY_TOO_LARGE, 53,      TRANSLATE_ME_IGNORE_PARAMS "Content size is too big, maximum size is %s."⟩,
  ⟨"not-found",              HTTP_NOT_FOUND,                54,      TRANSLATE_ME_IGNORE_PARAMS "%s does not exist."⟩,
  ⟨"precondition-failed",    HTTP_PRECONDITION_FAILED,      55,      TRANSLATE_ME_IGNORE_PARAMS "Precondition failed - %s"⟩,
  ⟨"db-err",                 HTTP_INTERNAL_SERVER_ERROR,    56,      TRANSLATE_ME_IGNORE_PARAMS "General DB error. %s"⟩,
  ⟨"bad-input",              HTTP_BAD_REQUEST,              57,      TRANSLATE_ME_IGNORE_PARAMS "Incorrect input. %s"⟩,
  ⟨"licensing-err",          HTTP_FORBIDDEN,                58,      TRANSLATE_ME_IGNORE_PARAMS "Action forbidden in current licensing state. %s"⟩,
  ⟨"upstream-err",           HTTP_BAD_GATEWAY,              59,      TRANSLATE_ME_IGNORE_PARAMS "Server which was contacted to fulfill the request has returned an error. %s"⟩
]

/-- What can stop an operation: a `static_assert` that fails when the call site
is compiled, or the `std::out_of_range` of `std::array::at`. -/
inductive Failure where
  | static_assert (message : String)
  | out_of_range
deriving DecidableEq, Repr

/-- Equality of two outcomes can be decided. -/
instance instDecidableEqExcept {ε α : Type} [DecidableEq ε] [DecidableEq α] :
    DecidableEq (Except ε α)
  | .ok a, .ok b => if h : a = b then isTrue (by rw [h]) else isFalse (fun h2 => h (by cases h2; rfl))
  | .error a, .error b =>
    if h : a = b then isTrue (by rw [h]) else isFalse (fun h2 => h (by cases h2; rfl))
  | .ok _, .error _ => isFalse (fun h => by cases h)
  | .error _, .ok _ => isFalse (fun h => by cases h)

/-- The bounds-checked access `_errors.at(i)`. -/
def _errors_at (i : Nat) : Except Failure _WSError :=
  match _errors[i]? with
  | some e => .ok e
  | none => .error .out_of_range

/-! ## The key resolver -/

/-- The NUL character. -/
def NUL : Char := '\x00'

/-- The characters of a C string: those in front of the first NUL. -/
def c_str (s : String) : String := ⟨s.data.takeWhile (fun c => c != NUL)⟩

/-- The character `*p` a non-null pointer points at: the first of the remaining
characters, the terminating NUL once they are used up. -/
def deref (p : List Char) : Char := p.headD NUL

/-- The recursion of `_strcmp` on two non-null pointers (`a + 1` and `b + 1` are
never null):
`(*a && *b) ? (*a == *b && _strcmp(a + 1, b + 1)) : (!*a && !*b)`. -/
def _strcmp_at : List Char → List Char → Bool
  | [], b => deref [] == NUL && deref b == NUL
  | ca :: a1, b =>
    if ca != NUL && deref b != NUL then
      ca == deref b && _strcmp_at a1 b.tail
    else
      ca == NUL && deref b == NUL

/-- The function `_strcmp(a, b)`: `false` when a pointer is null. -/
def _strcmp (a b : Option String) : Bool :=
  match a, b with
  | some a, some b => _strcmp_at a.data b.data
  | _, _ => false

/-- The test of `_die_idx` against one entry. -/
def _die_match (e : _WSError) (key : Option String) : Bool :=
  _strcmp (some e.key) key || _strcmp (some e.message) key

/-- The template `_die_idx<N>(key)`.  The instantiations with `N = 0` (it would
need `_die_idx<-1>`) and with `N ≥ 18` (the `static_assert` on the array size)
do not compile; `N = 1` is the explicit specialisation. -/
def _die_idx : Nat → Option String → Except Failure Int
  | 0, _ => .error (.static_assert "_die_idx asked for too big N")
  | 1, key =>
    if _errors.length > 1 then do
      let e ← _errors_at 1
      pure (if _die_match e key then 1 else 0)
    else .error (.static_assert "_die_idx asked for too big N")
  | N + 2, key =>
    if _errors.length > N + 2 then do
      let e ← _errors_at (N + 2)
      if _die_match e key then pure ((N + 2 : Nat) : Int) else _die_idx (N + 1) key
    else .error (.static_assert "_die_idx asked for too big N")

/-! ## What the header takes from other libraries -/

/-- The functions the header calls and does not define: `UTF8::escape` and
`UTF8::vajsonify_translation_string` of fty_common_utf8, and the three
`utils::json::create_error_json` overloads, which it only declares. -/
structure Ext where
  /-- `UTF8::escape(s)`; `none` when it throws -/
  escape : String → Option String
  /-- `UTF8::vajsonify_translation_string(format, args)` -/
  vajsonify_translation_string : String → List String → String
  /-- `create_error_json(message, code)` -/
  create_error_json : String → Nat → String
  /-- `create_error_json(message, code, debug)` -/
  create_error_json_debug : String → Nat → String → String
  /-- `create_error_json(messages)` -/
  create_error_json_batch : List (Nat × String × String) → String

/-- The response object `reply` of the enclosing request handler: the text
written to `reply.out()` so far and its content type. -/
structure Reply where
  out : String
  contentType : String
deriving DecidableEq, Repr

/-- The place of a macro call: `__FILE__` and `__LINE__`. -/
structure CallSite where
  file : String
  line : Nat
deriving DecidableEq, Repr

/-- What a `http_die*` macro leaves behind: the reply it wrote to and the value
it makes the enclosing function return. -/
structure Died where
  reply : Reply
  status : Int
deriving DecidableEq, Repr

/-- The function `_die_asprintf(buf, format, ...)`: the buffer it allocates, a
C string copied with `strcpy`, and the length it returns. -/
def _die_asprintf (ext : Ext) (format : String) (args : List String) : String × Int :=
  let buf_str := ext.vajsonify_translation_string format args
  let length := buf_str.length
  (c_str buf_str, (length : Int))

/-- The macro `http_die_contenttype_graceful(reply)`. -/
def http_die_contenttype_graceful (reply : Reply) : Reply :=
  if reply.contentType = "" then
    { reply with contentType := "application/json;charset=UTF-8" }
  else reply

/-- The macro `http_die_contenttype`, defined as the graceful variant. -/
def http_die_contenttype (reply : Reply) : Reply := http_die_contenttype_graceful reply

/-- The test `::getenv("BIOS_LOG_LEVEL") && !strcmp(::getenv("BIOS_LOG_LEVEL"), "LOG_DEBUG")`
on the value `getenv` gives (`none`: the variable is not set). -/
def log_debug (getenv : Option String) : Bool :=
  match getenv with
  | some v => v == "LOG_DEBUG"
  | none => false

/-- The string `__http_die__debug__`: `__FILE__`, then `": "`, then `__LINE__`. -/
def __http_die__debug__ (site : CallSite) : String :=
  site.file ++ (": " ++ toString site.line)

/-- The text of the `static_assert` that rejects a key. -/
def cant_find (key : String) : String :=
  "Can't find '" ++ key ++ "' in list of error messages. Either add new one either fix the typo in key"

/-- The first two statements of the keyed macros: the constant
`__http_die__key_idx__` and the `static_assert` that it is not 0. -/
def __http_die__key_idx__ (key : String) : Except Failure Nat := do
  let idx := size_t (← _die_idx (_WSErrorsCOUNT - 1) (some key))
  if idx != 0 then pure idx else .error (.static_assert (cant_find key))

/-- The macro `http_die(key, ...)`. -/
def http_die (ext : Ext) (getenv : Option String) (site : CallSite) (reply : Reply)
    (key : String) (args : List String) : Except Failure Died := do
  let idx ← __http_die__key_idx__ key
  let __http_die__error_message__ := (_die_asprintf ext (← _errors_at idx).message args).1
  let body ←
    if log_debug getenv then do
      pure (ext.create_error_json_debug __http_die__error_message__
        (uint32_t (← _errors_at idx).err_code) (__http_die__debug__ site))
    else do
      pure (ext.create_error_json __http_die__error_message__
        (uint32_t (← _errors_at idx).err_code))
  let reply := { reply with out := reply.out ++ body }
  let reply := http_die_contenttype reply
  pure { reply := reply, status := (← _errors_at idx).http_code }

/-- The normalisation at the head of `http_die_idx`:
`int64_t _idx = idx; if (_idx < 0) _idx = _idx * -1;
if (_idx >= int64_t(_WSErrorsCOUNT)) _idx = 0;`
with the product taken modulo `2^64`. -/
def http_die_idx_normalise (idx : Int) : Int :=
  let _idx := int64_t idx
  let _idx := if _idx < 0 then int64_t (_idx * -1) else _idx
  let _idx := if _idx ≥ int64_t _WSErrorsCOUNT then 0 else _idx
  _idx

/-- The macro `http_die_idx(idx, msg)`. -/
def http_die_idx (ext : Ext) (getenv : Option String) (site : CallSite) (reply : Reply)
    (idx : Int) (msg : String) : Except Failure Died := do
  let _idx := http_die_idx_normalise idx
  let body ←
    if log_debug getenv then do
      pure (ext.create_error_json_debug msg
        (uint32_t (← _errors_at (size_t _idx)).err_code) (__http_die__debug__ site))
    else do
      pure (ext.create_error_json msg (uint32_t (← _errors_at (size_t _idx)).err_code))
  let reply := { reply with out := reply.out ++ body }
  let reply := http_die_contenttype reply
  pure { reply := reply, status := uint32_t (← _errors_at (size_t _idx)).http_code }

/-- The struct `http_errors_t`. -/
structure http_errors_t where
  http_code : Nat
  errors : List (Nat × String × String)
deriving DecidableEq, Repr

/-- The macro `http_add_error(debug, errors, key, ...)`: the new value of `errors`. -/
def http_add_error (ext : Ext) (debug : String) (errors : http_errors_t)
    (key : String) (args : List String) : Except Failure http_errors_t := do
  let idx ← __http_die__key_idx__ key
  let errors := { errors with http_code := uint32_t (← _errors_at idx).http_code }
  let __http_die__error_message__ := (_die_asprintf ext (← _errors_at idx).message args).1
  pure { errors with errors := errors.errors ++
    [(uint32_t (← _errors_at idx).err_code, __http_die__error_message__, debug)] }

/-- The macro `http_die_error(errors)`. -/
def http_die_error (ext : Ext) (reply : Reply) (errors : http_errors_t) : Died :=
  let reply := { reply with out := reply.out ++ ext.create_error_json_batch errors.errors }
  let reply := http_die_contenttype reply
  { reply := reply, status := errors.http_code }

/-- The struct `BiosError`: the index and the message of the exception. -/
structure BiosError where
  idx : Nat
  message : String
deriving DecidableEq, Repr

/-- The macro `bios_error_idx(idx, str, key, ...)`: the values it stores in `idx`
and in `str`. -/
def bios_error_idx (ext : Ext) (key : String) (args : List String) :
    Except Failure (Nat × String) := do
  let idx ← __http_die__key_idx__ key
  let __http_die__error_message__ := (_die_asprintf ext (← _errors_at idx).message args).1
  pure (idx, __http_die__error_message__)

/-- The macro `bios_throw(key, ...)`: the exception it throws. -/
def bios_throw (ext : Ext) (key : String) (args : List String) : Except Failure BiosError := do
  let idx ← __http_die__key_idx__ key
  let __http_die__error_message__ := (_die_asprintf ext (← _errors_at idx).message args).1
  let str := __http_die__error_message__
  pure { idx := idx, message := str }

/-! ## The JSON encoder -/

/-- The overload `jsonify(T t)` for an arithmetic `T`; `to_string` is
`std::to_string` at that type, `none` when it throws.  (For `double` the header
also declares a non-template `jsonify(double)`, defined elsewhere.) -/
def jsonify_arithmetic {α : Type} (ext : Ext) (to_string : α → Option String) (t : α) : String :=
  match (do let s ← to_string t; ext.escape s) with
  | some r => r
  | none => ""

/-- The character `t[i]` of a `std::string`, which is NUL at `i = length`. -/
def at_index (t : String) (i : Nat) : Char := t.data.getD i NUL

/-- The test of `jsonify` for a string that is already JSON. -/
def already_json (t : String) : Bool :=
  let t_str := t
  let length := t_str.length
  decide (length ≥ 2) && at_index t 0 == '\x7b' && at_index t 1 != '\x7b'
    && at_index t (length - 2) != '\x7d' && at_index t (length - 1) == '\x7d'

/-- The overload `jsonify(const T& t)` for a `T` convertible to `std::string`. -/
def jsonify_string (ext : Ext) (t : String) : String :=
  match (if already_json t then some t
         else do
           let e ← ext.escape t
           pure ("\"" ++ e ++ "\"")) with
  | some r => r
  | none => ""

/-- The loop of the iterable overload: one step for `item`, on the pair of
`result` and `first`. -/
def jsonify_step {α : Type} (jsonify : α → String) (st : String × Bool) (item : α) :
    String × Bool :=
  if st.2 then (st.1 ++ jsonify item, false)
  else (st.1 ++ (", " ++ jsonify item), st.2)

/-- The overload `jsonify(const T& t)` for a `std::vector` or `std::list`;
`jsonify` is the overload chosen for the items.  No overload lets an exception
out, so nothing in the `try` block reaches its `catch`. -/
def jsonify_iterable {α : Type} (jsonify : α → String) (t : List α) : String :=
  let result := "[ "
  let first := true
  let st := t.foldl (jsonify_step jsonify) (result, first)
  st.1 ++ " ]"

/-- The overload `jsonify(const S& key, const T& value)`, both convertible to
`std::string`. -/
def jsonify_string_string (ext : Ext) (key : String) (value : String) : String :=
  jsonify_string ext key ++ " : " ++ jsonify_string ext value

/-- The overload `jsonify(const S& key, T value)`, the value arithmetic. -/
def jsonify_string_arithmetic {β : Type} (ext : Ext) (to_string : β → Option String)
    (key : String) (value : β) : String :=
  jsonify_string ext key ++ " : " ++ jsonify_arithmetic ext to_string value

/-- The overload `jsonify(T key, const S& value)`, the key arithmetic and the
value convertible to `std::string`. -/
def jsonify_arithmetic_string {α : Type} (ext : Ext) (to_string : α → Option String)
    (key : α) (value : String) : String :=
  "\"" ++ jsonify_arithmetic ext to_string key ++ "\" : " ++ jsonify_string ext value

/-- The overload `jsonify(T key, T value)`, both arithmetic. -/
def jsonify_arithmetic_arithmetic {α : Type} (ext : Ext) (to_string : α → Option String)
    (key : α) (value : α) : String :=
  "\"" ++ jsonify_arithmetic ext to_string key ++ "\" : " ++ jsonify_arithmetic ext to_string value

/-- The overload `jsonify(const S& key, const T& value)`, the value iterable. -/
def jsonify_string_iterable {β : Type} (ext : Ext) (jsonify : β → String)
    (key : String) (value : List β) : String :=
  jsonify_string ext key ++ " : " ++ jsonify_iterable jsonify value

/-- The overload `jsonify(T key, const S& value)`, the key arithmetic and the
value iterable. -/
def jsonify_arithmetic_iterable {α β : Type} (ext : Ext) (to_string : α → Option String)
    (jsonify : β → String) (key : α) (value : List β) : String :=
  "\"" ++ jsonify_arithmetic ext to_string key ++ "\" : " ++ jsonify_iterable jsonify value

/-- A sample of the external functions, used to evaluate the code on concrete
inputs: `escape` puts a backslash in front of a double quote and of a backslash,
the translation function keeps the format and lists the arguments after it, and
the error bodies are the message and the decimal code separated by bars. -/
def sampleExt : Ext where
  escape := fun s => some ⟨s.data.flatMap (fun c =>
    if c = '"' ∨ c = '\\' then ['\\', c] else [c])⟩
  vajsonify_translation_string := fun format args => String.intercalate "|" (format :: args)
  create_error_json := fun message code => message ++ "|" ++ toString code
  create_error_json_debug := fun message code debug =>
    message ++ "|" ++ toString code ++ "|" ++ debug
  create_error_json_batch := fun messages =>
    String.intercalate ";" (messages.map (fun m => toString m.1 ++ "|" ++ m.2.1 ++ "|" ++ m.2.2))

/-- `std::to_string` on integers: the decimal text; it does not throw. -/
def to_string_int (n : Int) : Option String := some (toString n)


/-- A run of `http_add_error` calls on the same `errors`, one call for each
`(debug, key, args)` of the list, in the order of the list. -/
def http_add_error_all (ext : Ext) (errors : http_errors_t) :
    List (String × String × List String) → Except Failure http_errors_t
  | [] => .ok errors
  | (debug, key, args) :: rest => do
    let errors ← http_add_error ext debug errors key args
    http_add_error_all ext errors rest

/-! ## The audit log context (`fty_common_rest_audit_log.cc`) -/

/-- The mapped diagnostic context of the logger: the value stored under each
key, `none` for a key without entry. -/
abbrev MDC := String → Option String

/-- The context without entries. -/
def MDC.empty : MDC := fun _ => none

/-- The call `m.insert(std::make_pair(k, v))` on a `std::map`: a key that is
already in the map keeps its value.  The map is kept as the list of its pairs. -/
def std_map_insert (m : List (String × String)) (kv : String × String) :
    List (String × String) :=
  if m.any (fun e => e.1 == kv.1) then m else m ++ [kv]

/-- Modelled from the spec: `Ftylog::clearContext()` of fty_log, which is not
part of the sources; the spec has it lead to the state with no context
installed ("leaves the context empty"). -/
def Ftylog.clearContext (_ctx : MDC) : MDC := MDC.empty

/-- Modelled from the spec: `Ftylog::setContext(contextParam)` of fty_log, which
is not part of the sources; the spec has it install the entries of the map in
the context. -/
def Ftylog.setContext (contextParam : List (String × String)) (ctx : MDC) : MDC :=
  contextParam.foldl (fun c kv => fun k => if k = kv.1 then some kv.2 else c k) ctx

/-- The function `AuditLogManager::setAuditLogContext`, on the context `ctx` of
the calling thread; `hasher` is `std::hash<std::string>`, whose values the
standard leaves to the implementation, and `std::to_string` gives the decimal
text. -/
def AuditLogManager.setAuditLogContext (hasher : String → Nat) (ctx : MDC)
    (token username : String) (userId : Int) (ip : String) : MDC :=
  let hashedToken := hasher token
  let contextParam : List (String × String) := []
  let contextParam := std_map_insert contextParam ("sessionid", toString hashedToken)
  let contextParam := std_map_insert contextParam ("username", username)
  let contextParam := std_map_insert contextParam ("uid", toString userId)
  let contextParam := std_map_insert contextParam ("IP", ip)
  let ctx := Ftylog.clearContext ctx
  Ftylog.setContext contextParam ctx

/-- The function `AuditLogManager::clearAuditLogContext`. -/
def AuditLogManager.clearAuditLogContext (ctx : MDC) : MDC :=
  Ftylog.clearContext ctx

/-- A sample hash function, used to evaluate the code on concrete inputs. -/
def sampleHasher (s : String) : Nat := s.length

/-- An instance of the external functions in which `UTF8::escape` always throws,
used to evaluate the fallbacks of the encoder. -/
def failingExt : Ext := { sampleExt with escape := fun _ => none }

/-! ## Outcomes named in the claims -/

/-- The outcome of a raise as the claims describe it: the error body made from
`message` and `code` (with the debug string when the log level asks for it) is
appended to the reply, the content type is set if it was empty, and `status` is
returned. -/
def error_reply (ext : Ext) (getenv : Option String) (site : CallSite) (reply : Reply)
    (message : String) (code : Nat) (status : Int) : Died :=
  { reply := http_die_contenttype { reply with out := reply.out ++
      (if log_debug getenv then
        ext.create_error_json_debug message code (__http_die__debug__ site)
      else ext.create_error_json message code) },
    status := status }

/-- The value `INT64_MIN`. -/
def INT64_MIN : Int := -9223372036854775808

/-- The shape the claims give for a string that is passed through: at least two
characters, the first an opening brace, the second not, the last a closing
brace, the one before it not. -/
def object_shaped (t : String) : Prop :=
  2 ≤ t.length ∧ t.data.head? = some '\x7b' ∧ t.data[1]? ≠ some '\x7b' ∧
    t.data.getLast? = some '\x7d' ∧ t.data.reverse[1]? ≠ some '\x7d'

instance instDecidableObjectShaped (t : String) : Decidable (object_shaped t) := by
  unfold object_shaped
  infer_instance

/-- The entry a key resolves to with `_die_idx<17>`. -/
def key_entry (key : String) : Option _WSError :=
  match _die_idx 17 (some key) with
  | .ok i => _errors[i.toNat]?
  | .error _ => none

/-- The four entries the claims give for the context after
`setAuditLogContext(token, username, userId, ip)`. -/
def audit_context (hasher : String → Nat) (token username : String) (userId : Int)
    (ip : String) : MDC := fun k =>
  if k = "sessionid" then some (toString (hasher token))
  else if k = "username" then some username
  else if k = "uid" then some (toString userId)
  else if k = "IP" then some ip
  else none

/-- The entry the claims give for the call `http_add_error(debug, errors, key,
args...)`: the internal code of the entry the key resolves to, the formatted
message, and the debug string. -/
def batch_entry (ext : Ext) (c : String × String × List String) : Nat × String × String :=
  match key_entry c.2.1 with
  | some e => (uint32_t e.err_code, (_die_asprintf ext e.message c.2.2).1, c.1)
  | none => (0, "", c.1)

/-! ## Reading the output of the encoder back as JSON -/

/-- The two hexadecimal digits of a character code below 256. -/
def hex2 (n : Nat) : List Char := [Nat.digitChar (n / 16), Nat.digitChar (n % 16)]

/-- Modelled from the spec: `UTF8::escape` of fty_common_utf8, which is not part
of the sources, as the escaping of the text of a JSON string: a backslash in
front of a double quote and of a backslash (the example of the spec: `hello
"world"` gives `hello \"world\"`), the two-character escapes of backspace, form
feed, newline, carriage return and tab, and `\u00XX` for the other control
characters. -/
def json_escape_char (c : Char) : List Char :=
  if c = '"' then ['\\', '"']
  else if c = '\\' then ['\\', '\\']
  else if c = '\x08' then ['\\', 'b']
  else if c = '\x0c' then ['\\', 'f']
  else if c = '\n' then ['\\', 'n']
  else if c = '\r' then ['\\', 'r']
  else if c = '\t' then ['\\', 't']
  else if c.toNat < 32 then '\\' :: 'u' :: '0' :: '0' :: hex2 c.toNat
  else [c]

/-- Modelled from the spec: see `json_escape_char`. -/
def json_escape (s : String) : String := ⟨s.data.flatMap json_escape_char⟩

/-- A value of a floating type, `m / 2^e` with a sign. -/
structure FloatValue where
  negative : Bool
  m : Nat
  e : Nat
deriving DecidableEq, Repr

/-- The number a floating value stands for. -/
def FloatValue.value (x : FloatValue) : ℚ :=
  (if x.negative then -1 else 1) * (x.m : ℚ) / (2 : ℚ) ^ x.e

/-- The function `std::to_string` at a floating type, the conversion `%f` of the
standard: the sign, the integer part, a point and six decimals, rounded to the
nearest, a tie to the even digit. -/
def to_string_float (x : FloatValue) : Option String :=
  let q := x.m * 10 ^ 6
  let d := 2 ^ x.e
  let r0 := q / d
  let rem := q % d
  let r := if 2 * rem > d ∨ (2 * rem = d ∧ r0 % 2 = 1) then r0 + 1 else r0
  let frac := (toString (r % 10 ^ 6)).data
  some ((if x.negative then "-" else "") ++ toString (r / 10 ^ 6) ++ "." ++
    ⟨List.replicate (6 - frac.length) '0' ++ frac⟩)

/-- A JSON number without fraction and exponent, or a JSON string. -/
inductive JsonAtom where
  | num (n : Int)
  | str (s : String)
deriving DecidableEq, Repr

/-- The JSON values the reader knows: a number, a string, an array of numbers
and strings. -/
inductive Json where
  | num (n : Int)
  | str (s : String)
  | arr (items : List JsonAtom)
deriving DecidableEq, Repr

/-- The white space of JSON: blank, tab, newline, carriage return. -/
def is_ws (c : Char) : Bool := c == ' ' || c == '\t' || c == '\n' || c == '\r'

/-- The text after the leading white space. -/
def skip_ws : List Char → List Char
  | [] => []
  | c :: rest => if is_ws c then skip_ws rest else c :: rest

/-- The value of a hexadecimal digit. -/
def hex_value (c : Char) : Option Nat :=
  if c.isDigit then some (c.toNat - 48)
  else if 97 ≤ c.toNat ∧ c.toNat ≤ 102 then some (c.toNat - 87)
  else if 65 ≤ c.toNat ∧ c.toNat ≤ 70 then some (c.toNat - 55)
  else none

/-- The character of a two-character escape of JSON, after the backslash. -/
def unescape_char (d : Char) : Option Char :=
  if d = '"' then some '"'
  else if d = '\\' then some '\\'
  else if d = '/' then some '/'
  else if d = 'b' then some '\x08'
  else if d = 'f' then some '\x0c'
  else if d = 'n' then some '\n'
  else if d = 'r' then some '\r'
  else if d = 't' then some '\t'
  else none

/-- The character of the escape `\uXXXX`, from its four digits. -/
def unescape_hex (h1 h2 h3 h4 : Char) : Option Char := do
  let v1 ← hex_value h1
  let v2 ← hex_value h2
  let v3 ← hex_value h3
  let v4 ← hex_value h4
  pure (Char.ofNat (((v1 * 16 + v2) * 16 + v3) * 16 + v4))

/-- Modelled from the spec: the reading of a JSON string (RFC 8259), which the
spec calls parsing and which is no part of the sources, after the opening double
quote: the text up to the closing double quote, with the escapes undone; a
control character that is not escaped is refused.  `fuel` bounds the number of
characters read. -/
def parse_string : Nat → List Char → Option (List Char × List Char)
  | 0, _ => none
  | _ + 1, [] => none
  | fuel + 1, c :: rest =>
    if c = '"' then some ([], rest)
    else if c = '\\' then
      match rest with
      | [] => none
      | d :: rest2 =>
        if d = 'u' then
          match rest2 with
          | h1 :: h2 :: h3 :: h4 :: rest3 =>
            match unescape_hex h1 h2 h3 h4 with
            | some u => (parse_string fuel rest3).map (fun r => (u :: r.1, r.2))
            | none => none
          | _ => none
        else
          match unescape_char d with
          | some u => (parse_string fuel rest2).map (fun r => (u :: r.1, r.2))
          | none => none
    else if c.toNat < 32 then none
    else (parse_string fuel rest).map (fun r => (c :: r.1, r.2))

/-- The characters of a non-empty array after the opening bracket and blank. -/
def items_chars {β : Type} (enc : β → String) : List β → List Char
  | [] => []
  | [x] => (enc x).data ++ [' ', ']']
  | x :: y :: l => (enc x).data ++ ',' :: ' ' :: items_chars enc (y :: l)

/-- Modelled from the spec: the reading of a run of decimal digits (see
`parse_string`): its value after `acc`, and what follows it. -/
def parse_digits : List Char → Nat → Nat × List Char
  | [], acc => (acc, [])
  | c :: rest, acc =>
    if c.isDigit then parse_digits rest (acc * 10 + (c.toNat - 48))
    else (acc, c :: rest)

/-- Modelled from the spec: the reading of a JSON number without fraction and
exponent (see `parse_string`): an optional minus sign and decimal digits; what
follows is left to the caller, which refuses a fraction or an exponent. -/
def parse_int (cs : List Char) : Option (Int × List Char) :=
  match cs with
  | [] => none
  | c :: rest =>
    if c = '-' then
      match rest with
      | [] => none
      | d :: _ =>
        if d.isDigit then
          some (-((parse_digits rest 0).1 : Int), (parse_digits rest 0).2)
        else none
    else if c.isDigit then
      some (((parse_digits (c :: rest) 0).1 : Int), (parse_digits (c :: rest) 0).2)
    else none

/-- Modelled from the spec: the reading of a number or a string (see
`parse_string`): a string after a double quote, a decimal integer otherwise. -/
def parse_atom (cs : List Char) : Option (JsonAtom × List Char) :=
  match cs with
  | [] => none
  | c :: rest =>
    if c = '"' then (parse_string rest.length rest).map (fun r => (JsonAtom.str ⟨r.1⟩, r.2))
    else (parse_int (c :: rest)).map (fun r => (JsonAtom.num r.1, r.2))

/-- Modelled from the spec: the reading of the items of a non-empty array (see
`parse_string`): white space, an item, white space, then a comma and the further
items or the closing bracket.  `fuel` bounds the number of items. -/
def parse_elements : Nat → List Char → Option (List JsonAtom × List Char)
  | 0, _ => none
  | fuel + 1, cs =>
    match parse_atom (skip_ws cs) with
    | none => none
    | some (a, rest) =>
      match skip_ws rest with
      | [] => none
      | c :: rest2 =>
        if c = ',' then (parse_elements fuel rest2).map (fun r => (a :: r.1, r.2))
        else if c = ']' then some ([a], rest2)
        else none

/-- Modelled from the spec: the reading of a JSON value (see `parse_string`):
white space, then an array after an opening bracket, a number or a string
otherwise. -/
def parse_value (cs : List Char) : Option (Json × List Char) :=
  match skip_ws cs with
  | [] => none
  | c :: rest =>
    if c = '[' then
      match skip_ws rest with
      | [] => none
      | c2 :: rest2 =>
        if c2 = ']' then some (Json.arr [], rest2)
        else (parse_elements rest.length (c2 :: rest2)).map (fun r => (Json.arr r.1, r.2))
    else
      match parse_atom (c :: rest) with
      | some (JsonAtom.num n, r) => some (Json.num n, r)
      | some (JsonAtom.str t, r) => some (Json.str t, r)
      | none => none

/-- Modelled from the spec: the parsing of a text as JSON (see `parse_string`): a
value, followed by white space only. -/
def json_parse (s : String) : Option Json :=
  match parse_value s.data with
  | some (v, rest) => if skip_ws rest = [] then some v else none
  | none => none

/-- An instance of the external functions in which `UTF8::escape` is
`json_escape`. -/
def jsonExt : Ext := { sampleExt with escape := fun s => some (json_escape s) }

/-- A decimal digit, which is none of the characters the reader and the escaping
treat apart. -/
def is_dec (c : Char) : Prop :=
  c.isDigit = true ∧ c ≠ '-' ∧ c ≠ '"' ∧ c ≠ '\\' ∧ json_escape_char c = [c] ∧
    is_ws c = false ∧ c ≠ '[' ∧ c ≠ ']'

/-- The value of a run of digits read after `acc`. -/
def dec_value (acc : Nat) (l : List Char) : Nat :=
  l.foldl (fun a c => a * 10 + (c.toNat - 48)) acc

/-! ## Properties of the table named in the claims -/

/-- The ten HTTP codes of the entries other than the sentinel. -/
def raise_codes : List Int := [400, 401, 403, 404, 405, 409, 412, 413, 500, 502]

/-- Every `%` of a template is directly followed by `s`. -/
def percent_s_only (message : String) : Prop :=
  ∀ j, j < message.data.length → message.data[j]? = some '%' →
    message.data[j + 1]? = some 's'

instance instDecidablePercentSOnly (message : String) : Decidable (percent_s_only message) := by
  unfold percent_s_only
  infer_instance

/-- The number of `%s` placeholders of a template: the places where a `%` is
directly followed by an `s`. -/
def placeholders (message : String) : Nat :=
  ((List.range message.data.length).filter (fun j =>
    message.data[j]? == some '%' && message.data[j + 1]? == some 's')).length

/-- The recursion of `_strcmp` on two non-null pointers with a bound on its
depth: `none` when `fuel` calls do not reach the end of the recursion. -/
def _strcmp_fuel : Nat → List Char → List Char → Option Bool
  | 0, _, _ => none
  | fuel + 1, a, b =>
    if deref a != NUL && deref b != NUL then
      if deref a == deref b then _strcmp_fuel fuel a.tail b.tail else some false
    else some (deref a == NUL && deref b == NUL)

/-! ## Lemmas on the key resolver -/

theorem _strcmp_at_iff (a b : List Char) :
    _strcmp_at a b = true ↔
      a.takeWhile (fun c => c != NUL) = b.takeWhile (fun c => c != NUL) := by
  induction a generalizing b with
  | nil =>
    cases b with
    | nil => simp [_strcmp_at, deref]
    | cons cb b1 =>
      by_cases hb : cb = NUL
      · simp [_strcmp_at, deref, hb]
      · simp [_strcmp_at, deref, hb, List.takeWhile_cons]
  | cons ca a1 ih =>
    cases b with
    | nil =>
      by_cases ha : ca = NUL
      · simp [_strcmp_at, deref, ha]
      · simp [_strcmp_at, deref, ha, List.takeWhile_cons]
    | cons cb b1 =>
      by_cases ha : ca = NUL
      · by_cases hb : cb = NUL
        · simp [_strcmp_at, deref, ha, hb]
        · simp [_strcmp_at, deref, ha, hb, List.takeWhile_cons]
      · by_cases hb : cb = NUL
        · simp [_strcmp_at, deref, ha, hb, List.takeWhile_cons]
        · simp [_strcmp_at, deref, ha, hb, List.takeWhile_cons, ih]

theorem _strcmp_iff (a b : String) :
    _strcmp (some a) (some b) = true ↔ c_str a = c_str b := by
  simp only [_strcmp, _strcmp_at_iff, c_str]
  constructor
  · intro h; rw [h]
  · intro h; exact congrArg String.data h

theorem _die_match_iff (e : _WSError) (s : String) :
    _die_match e (some s) = true ↔ (c_str s = c_str e.key ∨ c_str s = c_str e.message) := by
  simp only [_die_match, Bool.or_eq_true, _strcmp_iff]
  constructor <;> (intro h; rcases h with h | h) <;> first | exact Or.inl h.symm | exact Or.inr h.symm

theorem _errors_at_of_lt (i : Nat) (h : i < _errors.length) :
    _errors_at i = .ok _errors[i] := by
  simp [_errors_at, List.getElem?_eq_getElem h]

/-- The result of `_die_idx<N>` for `1 ≤ N < 18`, with the entry test left
abstract: the greatest index in `1..N` whose entry passes, or 0. -/
theorem _die_idx_scan (key : Option String) (N : Nat) (h1 : 1 ≤ N) (hN : N < _errors.length) :
    ∃ r : Nat, _die_idx N key = .ok (r : Int) ∧ r ≤ N ∧
      (r ≠ 0 → ∃ e, _errors[r]? = some e ∧ _die_match e key = true) ∧
      (∀ i e, 1 ≤ i → i ≤ N → _errors[i]? = some e → _die_match e key = true → i ≤ r) := by
  induction N with
  | zero => omega
  | succ n ih =>
    cases n with
    | zero =>
      have hat := _errors_at_of_lt 1 hN
      by_cases hm : _die_match _errors[1] key = true
      · refine ⟨1, ?_, le_refl _, ?_, ?_⟩
        · simp [_die_idx, hat, hN, hm, bind, Except.bind, pure, Except.pure]
        · intro _; exact ⟨_, List.getElem?_eq_getElem hN, hm⟩
        · intro i e hi1 hi2 _ _; exact hi2
      · refine ⟨0, ?_, by omega, ?_, ?_⟩
        · simp [_die_idx, hat, hN, hm, bind, Except.bind, pure, Except.pure]
        · intro h; exact absurd rfl h
        · intro i e hi1 hi2 he hme
          have hi : i = 1 := by omega
          subst hi
          rw [List.getElem?_eq_getElem hN] at he
          cases he
          exact absurd hme hm
    | succ m =>
      have hat := _errors_at_of_lt (m + 2) hN
      by_cases hm : _die_match _errors[m + 2] key = true
      · refine ⟨m + 2, ?_, le_refl _, ?_, ?_⟩
        · simp [_die_idx, hat, hN, hm, bind, Except.bind, pure, Except.pure]
        · intro _; exact ⟨_, List.getElem?_eq_getElem hN, hm⟩
        · intro i e hi1 hi2 _ _; exact hi2
      · obtain ⟨r, hr, hle, hmatch, hmax⟩ := ih (by omega) (by omega)
        refine ⟨r, ?_, by omega, hmatch, ?_⟩
        · simp [_die_idx, hat, hN, hm, bind, Except.bind, hr]
        · intro i e hi1 hi2 he hme
          by_cases hi : i = m + 2
          · subst hi
            rw [List.getElem?_eq_getElem hN] at he
            cases he
            exact absurd hme hm
          · exact hmax i e hi1 (by omega) he hme

/-- No key and no message of the catalog holds a NUL: each is its own C string. -/
theorem _errors_c_str (i : Nat) (e : _WSError) (h : _errors[i]? = some e) :
    c_str e.key = e.key ∧ c_str e.message = e.message := by
  have hi : i < 18 := by
    by_contra hc
    have : _errors[i]? = none := List.getElem?_eq_none (by simp [_errors]; omega)
    rw [this] at h; cases h
  interval_cases i <;> (simp [_errors] at h; subst h; decide)

/-- The result of `_die_idx<17>` on a non-null key, in terms of string equality
with the keys and messages of the catalog. -/
theorem _die_idx_resolve (s : String) :
    ∃ r : Nat, _die_idx 17 (some s) = .ok (r : Int) ∧ r ≤ 17 ∧
      (r ≠ 0 → ∃ e, _errors[r]? = some e ∧ (c_str s = e.key ∨ c_str s = e.message)) ∧
      (∀ i e, 1 ≤ i → i ≤ 17 → _errors[i]? = some e →
        (c_str s = e.key ∨ c_str s = e.message) → i ≤ r) ∧
      ((∀ i e, 1 ≤ i → i ≤ 17 → _errors[i]? = some e →
        ¬ (c_str s = e.key ∨ c_str s = e.message)) → r = 0) := by
  obtain ⟨r, hr, hle, hmatch, hmax⟩ := _die_idx_scan (some s) 17 (by decide) (by decide)
  have hm : r ≠ 0 → ∃ e, _errors[r]? = some e ∧ (c_str s = e.key ∨ c_str s = e.message) := by
    intro h0
    obtain ⟨e, he, hme⟩ := hmatch h0
    refine ⟨e, he, ?_⟩
    have hc := _errors_c_str r e he
    rw [_die_match_iff, hc.1, hc.2] at hme
    exact hme
  refine ⟨r, hr, hle, hm, ?_, ?_⟩
  · intro i e hi1 hi2 he hs
    apply hmax i e hi1 hi2 he
    have hc := _errors_c_str i e he
    rw [_die_match_iff, hc.1, hc.2]
    exact hs
  · intro hnone
    by_contra h0
    obtain ⟨e, he, hs⟩ := hm h0
    exact hnone r e (by omega) hle he hs

/-- The keys of the catalog are pairwise distinct. -/
theorem _errors_keys_nodup : (_errors.map (fun e => e.key)).Nodup := by decide

/-- Resolving the key of entry `j` gives `j`. -/
theorem _die_idx_of_key (j : Nat) (e : _WSError) (h : _errors[j]? = some e) :
    _die_idx 17 (some e.key) = .ok (j : Int) := by
  have hj : j < 18 := by
    by_contra hc
    have : _errors[j]? = none := List.getElem?_eq_none (by simp [_errors]; omega)
    rw [this] at h; cases h
  interval_cases j <;> (simp [_errors] at h; subst h; decide)

/-- Two entries of the catalog with the same key have the same index. -/
theorem _errors_key_inj (i j : Nat) (a b : _WSError) (ha : _errors[i]? = some a)
    (hb : _errors[j]? = some b) (hk : a.key = b.key) : i = j := by
  have hi : i < (_errors.map (fun e => e.key)).length := by
    by_contra hc
    have : _errors[i]? = none := List.getElem?_eq_none (by simpa using hc)
    rw [this] at ha; cases ha
  apply List.getElem?_inj hi _errors_keys_nodup
  simp [List.getElem?_map, ha, hb, hk]

theorem size_t_of_le (r : Nat) (h : r ≤ 17) : size_t (r : Int) = r := by
  simp only [size_t]
  omega

/-- The constant `__http_die__key_idx__` in terms of the resolved index. -/
theorem key_idx_eq (key : String) (r : Nat) (hr : _die_idx 17 (some key) = .ok (r : Int))
    (hle : r ≤ 17) :
    __http_die__key_idx__ key =
      if r = 0 then .error (.static_assert (cant_find key)) else .ok r := by
  have hs := size_t_of_le r hle
  have h17 : _WSErrorsCOUNT - 1 = 17 := by decide
  by_cases h0 : r = 0
  · subst h0
    have hs0 : size_t 0 = 0 := by decide
    simp [__http_die__key_idx__, h17, hr, bind, Except.bind, hs0]
  · simp [__http_die__key_idx__, h17, hr, bind, Except.bind, hs, h0, pure, Except.pure]

/-- An index up to 17 is in the catalog. -/
theorem _errors_at_of_le (r : Nat) (h : r ≤ 17) :
    ∃ e, _errors[r]? = some e ∧ _errors_at r = .ok e := by
  have hlt : r < _errors.length := by
    have : _errors.length = 18 := by decide
    omega
  exact ⟨_errors[r], List.getElem?_eq_getElem hlt, _errors_at_of_lt r hlt⟩

/-! ## Claims -/

/-- C1: for every string `s`, `_die_idx<17>(s)` returns an index `r` in `0..17`;
when `r` is not 0 the string equals the key or the message of entry `r`, every
index in `1..17` whose key or message equals the string is at most `r`, and `r`
is 0 when no index in `1..17` has the string as key or message. -/
theorem C1_die_idx_greatest_match (s : String) :
    ∃ r : Nat, _die_idx 17 (some s) = .ok (r : Int) ∧ r ≤ 17 ∧
      (r ≠ 0 → ∃ e, _errors[r]? = some e ∧ (c_str s = e.key ∨ c_str s = e.message)) ∧
      (∀ i e, 1 ≤ i → i ≤ 17 → _errors[i]? = some e →
        (c_str s = e.key ∨ c_str s = e.message) → i ≤ r) ∧
      ((∀ i e, 1 ≤ i → i ≤ 17 → _errors[i]? = some e →
        ¬ (c_str s = e.key ∨ c_str s = e.message)) → r = 0) :=
  _die_idx_resolve s

/-- C1, at `"Element '%s' not found."`, a message of the catalog: the result is 3. -/
theorem C1_die_idx_greatest_match_witness :
    ∃ r : Nat, _die_idx 17 (some "Element '%s' not found.") = .ok (r : Int) ∧ r = 3 := by
  obtain ⟨r, hr, _, _, _, _⟩ := C1_die_idx_greatest_match "Element '%s' not found."
  refine ⟨r, hr, ?_⟩
  have h3 : _die_idx 17 (some "Element '%s' not found.") = .ok (3 : Int) := by decide
  rw [h3] at hr
  cases hr
  rfl

/-- C2: a key `k` of the catalog resolves with `_die_idx<17>` to an index `i`
whose entry has the key `k`, and no other index of the catalog has that key. -/
theorem C2_catalog_key_resolves (k : String) (hk : ∃ e ∈ _errors, e.key = k) :
    ∃ i : Nat, _die_idx 17 (some k) = .ok (i : Int) ∧
      (∃ e, _errors[i]? = some e ∧ e.key = k) ∧
      (∀ j e, _errors[j]? = some e → e.key = k → j = i) := by
  obtain ⟨e, hmem, hek⟩ := hk
  obtain ⟨i, hi⟩ := List.getElem?_of_mem hmem
  subst hek
  refine ⟨i, _die_idx_of_key i e hi, ⟨e, hi, rfl⟩, ?_⟩
  intro j e2 hj hk2
  exact _errors_key_inj j i e2 e hj hi hk2

/-- C2 at the keys `"element-not-found"` and `"undefined"`: they resolve to 3 and to 0. -/
theorem C2_catalog_key_resolves_witness :
    (∃ i : Nat, _die_idx 17 (some "element-not-found") = .ok (i : Int) ∧ i = 3 ∧
      (∃ e, _errors[i]? = some e ∧ e.key = "element-not-found") ∧
      (∀ j e, _errors[j]? = some e → e.key = "element-not-found" → j = i)) ∧
    (∃ i : Nat, _die_idx 17 (some "undefined") = .ok (i : Int) ∧ i = 0 ∧
      (∃ e, _errors[i]? = some e ∧ e.key = "undefined") ∧
      (∀ j e, _errors[j]? = some e → e.key = "undefined" → j = i)) := by
  constructor
  · obtain ⟨i, hi, he, hu⟩ := C2_catalog_key_resolves "element-not-found"
      ⟨_errors[3], by decide, by decide⟩
    have h3 : _die_idx 17 (some "element-not-found") = .ok ((3 : Nat) : Int) := by decide
    have : i = 3 := by
      rw [h3] at hi
      cases hi
      rfl
    exact ⟨i, hi, this, he, hu⟩
  · obtain ⟨i, hi, he, hu⟩ := C2_catalog_key_resolves "undefined" ⟨_errors[0], by decide, by decide⟩
    have h0 : _die_idx 17 (some "undefined") = .ok ((0 : Nat) : Int) := by decide
    have : i = 0 := by
      rw [h0] at hi
      cases hi
      rfl
    exact ⟨i, hi, this, he, hu⟩

/-- C3: with `r` the index the key resolves to, each of `http_die`,
`http_add_error`, `bios_error_idx` and `bios_throw` stops at its `static_assert`,
with nothing formatted or written, exactly when `r` is 0; a key that is no key
and no message of the entries `1..17` is rejected (`r` is 0); and when `r` is not
0 each operation goes through, with the index `r`. -/
theorem C3_key_rejected_iff_sentinel (ext : Ext) (getenv : Option String) (site : CallSite)
    (reply : Reply) (debug : String) (errors : http_errors_t) (key : String)
    (args : List String) :
    ∃ r : Nat, _die_idx 17 (some key) = .ok (r : Int) ∧
      (r = 0 ↔ http_die ext getenv site reply key args
        = .error (.static_assert (cant_find key))) ∧
      (r = 0 ↔ http_add_error ext debug errors key args
        = .error (.static_assert (cant_find key))) ∧
      (r = 0 ↔ bios_error_idx ext key args = .error (.static_assert (cant_find key))) ∧
      (r = 0 ↔ bios_throw ext key args = .error (.static_assert (cant_find key))) ∧
      ((∀ i e, 1 ≤ i → i ≤ 17 → _errors[i]? = some e →
        ¬ (c_str key = e.key ∨ c_str key = e.message)) → r = 0) ∧
      (r ≠ 0 →
        (∃ d, http_die ext getenv site reply key args = .ok d) ∧
        (∃ es, http_add_error ext debug errors key args = .ok es) ∧
        (∃ str, bios_error_idx ext key args = .ok (r, str)) ∧
        (∃ str, bios_throw ext key args = .ok { idx := r, message := str })) := by
  obtain ⟨r, hr, hle, _, _, hnone⟩ := _die_idx_resolve key
  have hk := key_idx_eq key r hr hle
  obtain ⟨e, _, hat⟩ := _errors_at_of_le r hle
  refine ⟨r, hr, ?_, ?_, ?_, ?_, hnone, ?_⟩
  · by_cases h0 : r = 0
    · simp [http_die, hk, h0, bind, Except.bind]
    · simp only [http_die, hk, h0, hat, bind, Except.bind, pure, Except.pure, if_false]
      constructor
      · intro h; exact h.elim
      · intro h; split at h <;> cases h
  · by_cases h0 : r = 0
    · simp [http_add_error, hk, h0, bind, Except.bind]
    · simp [http_add_error, hk, h0, hat, bind, Except.bind, pure, Except.pure]
  · by_cases h0 : r = 0
    · simp [bios_error_idx, hk, h0, bind, Except.bind]
    · simp [bios_error_idx, hk, h0, hat, bind, Except.bind, pure, Except.pure]
  · by_cases h0 : r = 0
    · simp [bios_throw, hk, h0, bind, Except.bind]
    · simp [bios_throw, hk, h0, hat, bind, Except.bind, pure, Except.pure]
  · intro h0
    refine ⟨?_, ?_, ?_, ?_⟩
    · simp only [http_die, hk, h0, hat, bind, Except.bind, pure, Except.pure, if_false]
      split <;> exact ⟨_, rfl⟩
    · simp [http_add_error, hk, h0, hat, bind, Except.bind, pure, Except.pure]
    · simp [bios_error_idx, hk, h0, hat, bind, Except.bind, pure, Except.pure]
    · simp [bios_throw, hk, h0, hat, bind, Except.bind, pure, Except.pure]

/-- C3 at the key `"no-such-key"`: it is rejected by `http_die`; and at the key
`"not-found"`: `bios_throw` throws with index 12. -/
theorem C3_key_rejected_iff_sentinel_witness :
    http_die sampleExt none ⟨"handler.cc", 10⟩ ⟨"", ""⟩ "no-such-key" []
        = .error (.static_assert (cant_find "no-such-key")) ∧
      ∃ str, bios_throw sampleExt "not-found" ["x"] = .ok { idx := 12, message := str } := by
  constructor
  · obtain ⟨r, hr, h1, _⟩ := C3_key_rejected_iff_sentinel sampleExt none ⟨"handler.cc", 10⟩
      ⟨"", ""⟩ "" ⟨0, []⟩ "no-such-key" []
    have h0 : _die_idx 17 (some "no-such-key") = .ok ((0 : Nat) : Int) := by decide
    rw [h0] at hr
    have : r = 0 := by cases hr; rfl
    exact h1.mp this
  · obtain ⟨r, hr, _, _, _, _, _, h6⟩ := C3_key_rejected_iff_sentinel sampleExt none
      ⟨"handler.cc", 10⟩ ⟨"", ""⟩ "" ⟨0, []⟩ "not-found" ["x"]
    have h12 : _die_idx 17 (some "not-found") = .ok ((12 : Nat) : Int) := by decide
    rw [h12] at hr
    have : r = 12 := by cases hr; rfl
    subst this
    exact (h6 (by decide)).2.2.2

/-- The internal codes of the entries `1..17` are unchanged by the conversion to
`uint32_t`, and so are all the HTTP codes. -/
theorem _errors_uint32 (i : Nat) (e : _WSError) (h : _errors[i]? = some e) :
    ((uint32_t e.http_code : Nat) : Int) = e.http_code ∧
      (i ≠ 0 → ((uint32_t e.err_code : Nat) : Int) = e.err_code) := by
  have hi : i < 18 := by
    by_contra hc
    have : _errors[i]? = none := List.getElem?_eq_none (by simp [_errors]; omega)
    rw [this] at h; cases h
  interval_cases i <;> (simp [_errors] at h; subst h; decide)

/-- The macro `http_die` on a key that resolves to `i ≠ 0`. -/
theorem http_die_eq (ext : Ext) (getenv : Option String) (site : CallSite) (reply : Reply)
    (key : String) (args : List String) (i : Nat) (e : _WSError)
    (hi : _die_idx 17 (some key) = .ok (i : Int)) (h0 : i ≠ 0) (hle : i ≤ 17)
    (he : _errors[i]? = some e) :
    http_die ext getenv site reply key args = .ok (error_reply ext getenv site reply
      (_die_asprintf ext e.message args).1 (uint32_t e.err_code) e.http_code) := by
  have hk := key_idx_eq key i hi hle
  obtain ⟨e2, he2, hat⟩ := _errors_at_of_le i hle
  rw [he] at he2
  cases he2
  simp only [http_die, hk, h0, hat, bind, Except.bind, pure, Except.pure, if_false, error_reply]
  split <;> rfl

/-- C4: when the key resolves to an index `i` other than 0, `http_die` returns
the HTTP code of entry `i` and writes the error body made with the internal code
of entry `i`, whatever the format arguments; `http_die("element-not-found",
"server-42")` returns 404 with code 44 and `http_die("request-param-bad",
"voltage", "abc", "numeric")` returns 400 with code 47. -/
theorem C4_http_die_status_and_code (ext : Ext) (getenv : Option String) (site : CallSite)
    (reply : Reply) (key : String) (args : List String) :
    (∀ i : Nat, _die_idx 17 (some key) = .ok (i : Int) → i ≠ 0 →
      ∃ (e : _WSError) (code : Nat), _errors[i]? = some e ∧ (code : Int) = e.err_code ∧
        http_die ext getenv site reply key args = .ok (error_reply ext getenv site reply
          (_die_asprintf ext e.message args).1 code e.http_code)) ∧
    (∃ message, http_die ext getenv site reply "element-not-found" ["server-42"]
      = .ok (error_reply ext getenv site reply message 44 404)) ∧
    (∃ message, http_die ext getenv site reply "request-param-bad" ["voltage", "abc", "numeric"]
      = .ok (error_reply ext getenv site reply message 47 400)) := by
  refine ⟨?_, ?_, ?_⟩
  · intro i hi h0
    obtain ⟨r, hr, hle, _⟩ := _die_idx_resolve key
    rw [hi] at hr
    have hri : i = r := by cases hr; rfl
    subst hri
    obtain ⟨e, he, _⟩ := _errors_at_of_le i hle
    exact ⟨e, uint32_t e.err_code, he, (_errors_uint32 i e he).2 h0,
      http_die_eq ext getenv site reply key args i e hi h0 hle he⟩
  · exact ⟨_, http_die_eq ext getenv site reply "element-not-found" ["server-42"] 3 _errors[3]
      (by decide) (by decide) (by decide) (by decide)⟩
  · exact ⟨_, http_die_eq ext getenv site reply "request-param-bad" ["voltage", "abc", "numeric"]
      6 _errors[6] (by decide) (by decide) (by decide) (by decide)⟩

/-- C4 at the key `"data-conflict"`, which resolves to 8: status 409 and code 50. -/
theorem C4_http_die_status_and_code_witness :
    ∃ d, http_die sampleExt none ⟨"handler.cc", 10⟩ ⟨"", ""⟩ "data-conflict" ["a", "b"] = .ok d ∧
      d.status = 409 ∧
      d.reply.out = "Element '%s' cannot be processed because of conflict. %s|a|b|50" := by
  obtain ⟨e, code, he, hc, hd⟩ := (C4_http_die_status_and_code sampleExt none
    ⟨"handler.cc", 10⟩ ⟨"", ""⟩ "data-conflict" ["a", "b"]).1 8 (by decide) (by decide)
  have he8 : e = _errors[8] := by
    have h8 : _errors[8]? = some _errors[8] := by decide
    rw [h8] at he
    cases he
    rfl
  subst he8
  have hcode : code = 50 := by
    have : (code : Int) = 50 := hc
    exact_mod_cast this
  subst hcode
  exact ⟨_, hd, by decide, by decide⟩

/-- C5, at the input it fails on: for `idx = INT64_MIN` the product `_idx * -1`
is `INT64_MIN` again modulo `2^64`, the normalised index stays negative,
`size_t(_idx)` is `2^63`, and `_errors.at` throws `std::out_of_range`: no status
and no body are produced. -/
theorem C5_http_die_idx_int64_min :
    http_die_idx_normalise INT64_MIN = INT64_MIN ∧
      ¬ (0 ≤ http_die_idx_normalise INT64_MIN) ∧
      size_t (http_die_idx_normalise INT64_MIN) = 9223372036854775808 ∧
      ∀ (ext : Ext) (getenv : Option String) (site : CallSite) (reply : Reply) (msg : String),
        http_die_idx ext getenv site reply INT64_MIN msg = .error .out_of_range := by
  have hn : http_die_idx_normalise INT64_MIN = INT64_MIN := by decide
  have hs : size_t INT64_MIN = 9223372036854775808 := by decide
  have hat : _errors_at 9223372036854775808 = .error .out_of_range := by
    have : _errors[9223372036854775808]? = none := List.getElem?_eq_none (by simp [_errors])
    simp [_errors_at, this]
  refine ⟨hn, by rw [hn]; decide, by rw [hn]; exact hs, ?_⟩
  intro ext getenv site reply msg
  simp only [http_die_idx, hn, hs, hat, bind, Except.bind]
  split <;> rfl

/-- Away from `INT64_MIN` the normalised index is in `0..17`. -/
theorem http_die_idx_normalise_range (idx : Int) (h : int64_t idx ≠ INT64_MIN) :
    0 ≤ http_die_idx_normalise idx ∧ http_die_idx_normalise idx < 18 := by
  simp only [http_die_idx_normalise, int64_t, _WSErrorsCOUNT, INT64_MIN] at *
  norm_num at *
  split_ifs <;> omega

/-- The normalised index does not see the sign of `idx`. -/
theorem http_die_idx_normalise_neg (n : Int) :
    http_die_idx_normalise (-n) = http_die_idx_normalise n := by
  simp only [http_die_idx_normalise, int64_t, _WSErrorsCOUNT]
  norm_num
  split_ifs <;> omega

theorem int64_t_idem (n : Int) : int64_t (int64_t n) = int64_t n := by
  simp only [int64_t]
  omega

/-- The macro `http_die_idx` only depends on the normalised index. -/
theorem http_die_idx_congr (ext : Ext) (getenv : Option String) (site : CallSite)
    (reply : Reply) (a b : Int) (m : String)
    (h : http_die_idx_normalise a = http_die_idx_normalise b) :
    http_die_idx ext getenv site reply a m = http_die_idx ext getenv site reply b m := by
  simp only [http_die_idx, h]

/-- C6: for every integer `n` and message `m`, `http_die_idx(n, m)` and
`http_die_idx(-n, m)` have the same normalised index and the same outcome (the
reply written and the status returned); the same holds when `-n` is first
reduced to an `int64_t`. -/
theorem C6_http_die_idx_sign (ext : Ext) (getenv : Option String) (site : CallSite)
    (reply : Reply) (n : Int) (m : String) :
    http_die_idx_normalise (-n) = http_die_idx_normalise n ∧
      http_die_idx ext getenv site reply (-n) m = http_die_idx ext getenv site reply n m ∧
      http_die_idx ext getenv site reply (int64_t (-n)) m
        = http_die_idx ext getenv site reply n m := by
  have h1 := http_die_idx_normalise_neg n
  refine ⟨h1, http_die_idx_congr ext getenv site reply _ _ m h1, ?_⟩
  apply http_die_idx_congr
  rw [← h1]
  simp only [http_die_idx_normalise, int64_t_idem]

/-! ## Lemmas on the JSON encoder -/

theorem already_json_iff (t : String) : already_json t = true ↔ object_shaped t := by
  have hlen : t.length = t.data.length := rfl
  simp only [already_json, object_shaped, at_index, hlen, Bool.and_eq_true, decide_eq_true_eq,
    beq_iff_eq, bne_iff_ne, ne_eq, List.getD_eq_getElem?_getD, List.getLast?_eq_getElem?,
    List.head?_eq_getElem?]
  constructor
  · rintro ⟨⟨⟨⟨h2, h0⟩, h1⟩, h3⟩, h4⟩
    have e0 : t.data[0]? = some t.data[0] := List.getElem?_eq_getElem (by omega)
    have e1 : t.data[1]? = some t.data[1] := List.getElem?_eq_getElem (by omega)
    have e3 : t.data[t.data.length - 2]? = some t.data[t.data.length - 2] :=
      List.getElem?_eq_getElem (by omega)
    have e4 : t.data[t.data.length - 1]? = some t.data[t.data.length - 1] :=
      List.getElem?_eq_getElem (by omega)
    have er : t.data.reverse[1]? = t.data[t.data.length - 2]? := by
      rw [List.getElem?_reverse (by omega)]
      have hsub : t.data.length - 1 - 1 = t.data.length - 2 := by omega
      rw [hsub]
    rw [er]
    rw [e0] at h0 ⊢
    rw [e1] at h1 ⊢
    rw [e3] at h3 ⊢
    rw [e4] at h4 ⊢
    simp only [Option.getD_some] at h0 h1 h3 h4
    refine ⟨h2, by rw [h0], ?_, by rw [h4], ?_⟩
    · intro h; exact h1 (Option.some.inj h)
    · intro h; exact h3 (Option.some.inj h)
  · rintro ⟨h2, h0, h1, h4, h3⟩
    have e0 : t.data[0]? = some t.data[0] := List.getElem?_eq_getElem (by omega)
    have e1 : t.data[1]? = some t.data[1] := List.getElem?_eq_getElem (by omega)
    have e3 : t.data[t.data.length - 2]? = some t.data[t.data.length - 2] :=
      List.getElem?_eq_getElem (by omega)
    have e4 : t.data[t.data.length - 1]? = some t.data[t.data.length - 1] :=
      List.getElem?_eq_getElem (by omega)
    have er : t.data.reverse[1]? = t.data[t.data.length - 2]? := by
      rw [List.getElem?_reverse (by omega)]
      have hsub : t.data.length - 1 - 1 = t.data.length - 2 := by omega
      rw [hsub]
    rw [er] at h3
    rw [e0] at h0 ⊢
    rw [e1] at h1 ⊢
    rw [e3] at h3 ⊢
    rw [e4] at h4 ⊢
    simp only [Option.getD_some]
    refine ⟨⟨⟨⟨h2, Option.some.inj h0⟩, ?_⟩, ?_⟩, Option.some.inj h4⟩
    · intro h; exact h1 (by rw [h])
    · intro h; exact h3 (by rw [h])

theorem jsonify_string_pass (ext : Ext) (t : String) (h : already_json t = true) :
    jsonify_string ext t = t := by
  simp [jsonify_string, h]

theorem jsonify_string_quote (ext : Ext) (t e : String) (h : already_json t = false)
    (he : ext.escape t = some e) : jsonify_string ext t = "\"" ++ e ++ "\"" := by
  simp [jsonify_string, h, he, bind, Option.bind, pure]

theorem intercalate_go_prepend (p acc sep : String) (l : List String) :
    String.intercalate.go (p ++ acc) sep l = p ++ String.intercalate.go acc sep l := by
  induction l generalizing acc with
  | nil => simp [String.intercalate.go]
  | cons a l ih =>
    simp only [String.intercalate.go]
    rw [← ih, String.append_assoc, String.append_assoc, String.append_assoc]

theorem jsonify_fold_eq {α : Type} (jsonify : α → String) (result : String) (l : List α) :
    (l.foldl (jsonify_step jsonify) (result, false)).1
      = String.intercalate.go result ", " (l.map jsonify) := by
  induction l generalizing result with
  | nil => simp [String.intercalate.go]
  | cons a l ih =>
    simp only [List.foldl_cons, List.map_cons, String.intercalate.go]
    rw [show jsonify_step jsonify (result, false) a = (result ++ (", " ++ jsonify a), false)
      from rfl]
    rw [ih, String.append_assoc]

/-- The iterable overload in terms of `String.intercalate`. -/
theorem jsonify_iterable_eq {α : Type} (jsonify : α → String) (xs : List α) :
    jsonify_iterable jsonify xs = "[ " ++ String.intercalate ", " (xs.map jsonify) ++ " ]" := by
  cases xs with
  | nil => simp [jsonify_iterable, String.intercalate]
  | cons a l =>
    simp only [jsonify_iterable, List.foldl_cons, List.map_cons, String.intercalate]
    rw [show jsonify_step jsonify ("[ ", true) a = ("[ " ++ jsonify a, false) from rfl]
    rw [jsonify_fold_eq, intercalate_go_prepend]

/-- C8: the string overload of `jsonify` returns `t` itself when `t` has the
object shape, and a double quote, `UTF8::escape(t)`, a double quote when it has
not (and `escape` returns); as an escaped text is never shorter than the text,
`t` comes back unchanged exactly when it has the object shape.  The text
`{"a":1}` is returned unchanged and `hello "world"` is quoted and escaped. -/
theorem C8_jsonify_string_passthrough (ext : Ext) (t : String) :
    (object_shaped t → jsonify_string ext t = t) ∧
    (¬ object_shaped t → ∀ e, ext.escape t = some e →
      jsonify_string ext t = "\"" ++ e ++ "\"") ∧
    (∀ e, ext.escape t = some e → t.length ≤ e.length →
      (jsonify_string ext t = t ↔ object_shaped t)) ∧
    jsonify_string ext "\x7b\"a\":1\x7d" = "\x7b\"a\":1\x7d" ∧
    (∀ e, ext.escape "hello \"world\"" = some e →
      jsonify_string ext "hello \"world\"" = "\"" ++ e ++ "\"") := by
  have hpass : object_shaped t → jsonify_string ext t = t := fun h =>
    jsonify_string_pass ext t ((already_json_iff t).mpr h)
  have hquote : ¬ object_shaped t → ∀ e, ext.escape t = some e →
      jsonify_string ext t = "\"" ++ e ++ "\"" := by
    intro h e he
    apply jsonify_string_quote ext t e _ he
    cases hb : already_json t
    · rfl
    · exact absurd ((already_json_iff t).mp hb) h
  refine ⟨hpass, hquote, ?_, ?_, ?_⟩
  · intro e he hlen
    constructor
    · intro heq
      by_contra hns
      rw [hquote hns e he] at heq
      have := congrArg String.length heq
      simp only [String.length_append] at this
      have h1 : ("\"" : String).length = 1 := by decide
      omega
    · exact hpass
  · exact jsonify_string_pass ext _ (by decide)
  · intro e he
    exact jsonify_string_quote ext _ e (by decide) he

/-- C8 with the sample `escape`: `{"a":1}` comes back unchanged, `hello "world"`
comes back as `"hello \"world\""`, and the empty string and a one-character
string are quoted. -/
theorem C8_jsonify_string_passthrough_witness :
    jsonify_string sampleExt "\x7b\"a\":1\x7d" = "\x7b\"a\":1\x7d" ∧
      jsonify_string sampleExt "hello \"world\"" = "\"hello \\\"world\\\"\"" ∧
      jsonify_string sampleExt "" = "\"\"" ∧
      jsonify_string sampleExt "\x7b" = "\"\x7b\"" :=
  ⟨(C8_jsonify_string_passthrough sampleExt "\x7b\"a\":1\x7d").1 (by decide),
    (C8_jsonify_string_passthrough sampleExt "hello \"world\"").2.1 (by decide)
      "hello \\\"world\\\"" (by decide),
    (C8_jsonify_string_passthrough sampleExt "").2.1 (by decide) "" (by decide),
    (C8_jsonify_string_passthrough sampleExt "\x7b").2.1 (by decide) "\x7b" (by decide)⟩

/-- C9: for every sequence `xs`, `jsonify(xs)` is `"[ "`, then the encodings of
the items in the order of `xs` with `", "` between them, then `" ]"`; the empty
sequence gives `"[  ]"`; the items go through the overload for their type, so a
string item of the object shape is passed through and a sequence item is
encoded as a sequence. -/
theorem C9_jsonify_iterable_join {α : Type} (jsonify : α → String) (xs : List α) (ext : Ext)
    (ts : List String) (tss : List (List String)) :
    jsonify_iterable jsonify xs = "[ " ++ String.intercalate ", " (xs.map jsonify) ++ " ]" ∧
    jsonify_iterable jsonify ([] : List α) = "[  ]" ∧
    jsonify_iterable (jsonify_string ext) ts
      = "[ " ++ String.intercalate ", " (ts.map (jsonify_string ext)) ++ " ]" ∧
    jsonify_iterable (jsonify_iterable (jsonify_string ext)) tss
      = "[ " ++ String.intercalate ", " (tss.map (fun ts2 =>
          "[ " ++ String.intercalate ", " (ts2.map (jsonify_string ext)) ++ " ]")) ++ " ]" ∧
    jsonify_iterable (jsonify_string ext) ["\x7b\"a\":1\x7d", "\x7b\"b\":2\x7d"]
      = "[ \x7b\"a\":1\x7d, \x7b\"b\":2\x7d ]" := by
  refine ⟨jsonify_iterable_eq jsonify xs, rfl, jsonify_iterable_eq _ ts, ?_, ?_⟩
  · rw [jsonify_iterable_eq]
    congr 3
    apply List.map_congr_left
    intro ts2 _
    exact jsonify_iterable_eq _ ts2
  · rw [jsonify_iterable_eq]
    simp only [List.map_cons, List.map_nil]
    rw [jsonify_string_pass ext _ (by decide), jsonify_string_pass ext _ (by decide)]
    decide

/-- C10, at the input it fails on: with the key `{a}`, which has the object
shape, the pair overloads for a string key write the key as it is, without the
double quotes: the result is `{a} : ` followed by the encoded value, and it
starts with the brace. -/
theorem C10_jsonify_pair_object_key (ext : Ext) (value : String) :
    jsonify_string_string ext "\x7ba\x7d" value = "\x7ba\x7d : " ++ jsonify_string ext value ∧
    (jsonify_string_string ext "\x7ba\x7d" value).data.head? = some '\x7b' ∧
    jsonify_string_string ext "\x7ba\x7d" "\x7bb\x7d" = "\x7ba\x7d : \x7bb\x7d" ∧
    jsonify_string_string sampleExt "\x7ba\x7d" "v" = "\x7ba\x7d : \"v\"" ∧
    (∀ (β : Type) (jsonify : β → String) (xs : List β),
      jsonify_string_iterable ext jsonify "\x7ba\x7d" xs
        = "\x7ba\x7d : " ++ jsonify_iterable jsonify xs) ∧
    (∀ (β : Type) (to_string : β → Option String) (n : β),
      jsonify_string_arithmetic ext to_string "\x7ba\x7d" n
        = "\x7ba\x7d : " ++ jsonify_arithmetic ext to_string n) := by
  have hk : jsonify_string ext "\x7ba\x7d" = "\x7ba\x7d" := jsonify_string_pass ext _ (by decide)
  have hv : jsonify_string ext "\x7bb\x7d" = "\x7bb\x7d" := jsonify_string_pass ext _ (by decide)
  refine ⟨?_, ?_, ?_, by decide, ?_, ?_⟩
  · simp only [jsonify_string_string, hk]
    rfl
  · simp only [jsonify_string_string, hk, String.data_append]
    rfl
  · simp only [jsonify_string_string, hk, hv]
    decide
  · intro β jsonify xs
    simp only [jsonify_string_iterable, hk]
    rfl
  · intro β to_string n
    simp only [jsonify_string_arithmetic, hk]
    rfl

/-- Where the pair overloads do give the quoted key: an arithmetic key is always
quoted, and a string key is when it has not the object shape and `escape`
returns. -/
theorem jsonify_pair_quoted_key {α : Type} (ext : Ext) (to_string : α → Option String)
    (n : α) (key e value : String) (hk : ¬ object_shaped key) (he : ext.escape key = some e) :
    jsonify_string_string ext key value = "\"" ++ e ++ "\"" ++ " : " ++ jsonify_string ext value ∧
    jsonify_arithmetic_string ext to_string n value
      = "\"" ++ jsonify_arithmetic ext to_string n ++ "\"" ++ " : " ++ jsonify_string ext value := by
  have hb : already_json key = false := by
    cases hb : already_json key
    · rfl
    · exact absurd ((already_json_iff key).mp hb) hk
  constructor
  · simp only [jsonify_string_string, jsonify_string_quote ext key e hb he]
  · simp only [jsonify_arithmetic_string, String.append_assoc]
    rfl

/-! ## Claims on the fallbacks of the encoder, the batch, the audit context -/

/-- C11: with `std::to_string` and `UTF8::escape` able to fail, every overload
of `jsonify` has a value in every case.  The scalar overload gives the empty
string when the conversion fails or when the escaping fails, and the escaped
text otherwise; the string overload gives the empty string when the escaping
fails (it is only tried on a text without the object shape); the sequence
overload brackets the values of the items, and the pair overloads join the
values of key and value, whatever these values are. -/
theorem C11_jsonify_never_raises {α β : Type} (ext : Ext) (to_string : α → Option String)
    (n : α) (t : String) (jsonify : β → String) (xs : List β) :
    (to_string n = none → jsonify_arithmetic ext to_string n = "") ∧
    (∀ s, to_string n = some s → ext.escape s = none →
      jsonify_arithmetic ext to_string n = "") ∧
    (∀ s e, to_string n = some s → ext.escape s = some e →
      jsonify_arithmetic ext to_string n = e) ∧
    (¬ object_shaped t → ext.escape t = none → jsonify_string ext t = "") ∧
    (¬ object_shaped t → ∀ e, ext.escape t = some e →
      jsonify_string ext t = "\"" ++ e ++ "\"") ∧
    (object_shaped t → jsonify_string ext t = t) ∧
    jsonify_iterable jsonify xs = "[ " ++ String.intercalate ", " (xs.map jsonify) ++ " ]" ∧
    (¬ object_shaped t → ext.escape t = none →
      jsonify_string_string ext t t = " : " ∧
      jsonify_iterable (jsonify_string ext) [t, t] = "[ ,  ]" ∧
      jsonify_arithmetic_string ext to_string n t
        = "\"" ++ jsonify_arithmetic ext to_string n ++ "\" : ") := by
  have hfalse : ¬ object_shaped t → already_json t = false := by
    intro h
    cases hb : already_json t
    · rfl
    · exact absurd ((already_json_iff t).mp hb) h
  have hnone : ¬ object_shaped t → ext.escape t = none → jsonify_string ext t = "" := by
    intro h he
    simp [jsonify_string, hfalse h, he, bind, Option.bind]
  refine ⟨?_, ?_, ?_, hnone, ?_, ?_, jsonify_iterable_eq jsonify xs, ?_⟩
  · intro h
    simp [jsonify_arithmetic, h, bind, Option.bind]
  · intro s hs he
    simp [jsonify_arithmetic, hs, he, bind, Option.bind]
  · intro s e hs he
    simp [jsonify_arithmetic, hs, he, bind, Option.bind]
  · intro h e he
    exact jsonify_string_quote ext t e (hfalse h) he
  · intro h
    exact jsonify_string_pass ext t ((already_json_iff t).mpr h)
  · intro h he
    have h0 := hnone h he
    refine ⟨?_, ?_, ?_⟩
    · simp only [jsonify_string_string, h0]
      rfl
    · rw [jsonify_iterable_eq]
      simp only [List.map_cons, List.map_nil, h0]
      rfl
    · simp only [jsonify_arithmetic_string, h0, String.append_empty]

/-- C11 with an `escape` that always throws: the scalar 5 and the string `abc`
are encoded as the empty string, the sequence of `a` and `b` as `[ ,  ]`. -/
theorem C11_jsonify_never_raises_witness :
    jsonify_arithmetic failingExt to_string_int 5 = "" ∧
      jsonify_string failingExt "abc" = "" ∧
      jsonify_string_string failingExt "abc" "abc" = " : " ∧
      jsonify_iterable (jsonify_string failingExt) ["abc", "abc"] = "[ ,  ]" :=
  ⟨(C11_jsonify_never_raises failingExt to_string_int 5 "abc" (jsonify_string failingExt)
      ["abc"]).2.1 "5" (by decide) (by decide),
    (C11_jsonify_never_raises failingExt to_string_int 5 "abc" (jsonify_string failingExt)
      ["abc"]).2.2.2.1 (by decide) (by decide),
    ((C11_jsonify_never_raises failingExt to_string_int 5 "abc" (jsonify_string failingExt)
      ["abc"]).2.2.2.2.2.2.2 (by decide) (by decide)).1,
    ((C11_jsonify_never_raises failingExt to_string_int 5 "abc" (jsonify_string failingExt)
      ["abc"]).2.2.2.2.2.2.2 (by decide) (by decide)).2.1⟩

/-- The context after `setAuditLogContext`, whatever it was before. -/
theorem setAuditLogContext_eq (hasher : String → Nat) (ctx : MDC) (token username : String)
    (userId : Int) (ip : String) :
    AuditLogManager.setAuditLogContext hasher ctx token username userId ip
      = audit_context hasher token username userId ip := by
  funext k
  simp only [AuditLogManager.setAuditLogContext, std_map_insert, Ftylog.clearContext,
    Ftylog.setContext, audit_context, MDC.empty]
  by_cases h1 : k = "sessionid"
  · subst h1; simp
  · by_cases h2 : k = "username"
    · subst h2; simp
    · by_cases h3 : k = "uid"
      · subst h3; simp
      · by_cases h4 : k = "IP"
        · subst h4; simp
        · simp [h1, h2, h3, h4]
          rfl

/-- C13: `setAuditLogContext` followed by `clearAuditLogContext` leaves the
context without any entry (none for `sessionid`, `username`, `uid` or `IP`),
whatever the arguments and the context before; `clearAuditLogContext` on the
empty context leaves it empty. -/
theorem C13_set_then_clear_is_empty (hasher : String → Nat) (ctx : MDC)
    (token username : String) (userId : Int) (ip : String) :
    AuditLogManager.clearAuditLogContext
        (AuditLogManager.setAuditLogContext hasher ctx token username userId ip) = MDC.empty ∧
      (∀ k, AuditLogManager.clearAuditLogContext
        (AuditLogManager.setAuditLogContext hasher ctx token username userId ip) k = none) ∧
      AuditLogManager.clearAuditLogContext MDC.empty = MDC.empty ∧
      (∃ v, AuditLogManager.setAuditLogContext hasher ctx token username userId ip "username"
        = some v) :=
  ⟨rfl, fun _ => rfl, rfl, ⟨username, by rw [setAuditLogContext_eq]; rfl⟩⟩

/-- C14: after `setAuditLogContext(token, username, userId, ip)` the context
holds `sessionid` = decimal text of the hash of the token, `username`, `uid` =
decimal text of the user id, `IP`, and nothing else, whatever it held before; so
a second call leaves what it would leave alone. -/
theorem C14_set_installs_four_entries (hasher : String → Nat) (ctx ctx2 : MDC)
    (token username : String) (userId : Int) (ip : String)
    (token2 username2 : String) (userId2 : Int) (ip2 : String) :
    let after := AuditLogManager.setAuditLogContext hasher ctx token username userId ip
    after "sessionid" = some (toString (hasher token)) ∧
      after "username" = some username ∧
      after "uid" = some (toString userId) ∧
      after "IP" = some ip ∧
      (∀ k, k ≠ "sessionid" → k ≠ "username" → k ≠ "uid" → k ≠ "IP" → after k = none) ∧
      after = audit_context hasher token username userId ip ∧
      AuditLogManager.setAuditLogContext hasher after token2 username2 userId2 ip2
        = AuditLogManager.setAuditLogContext hasher ctx2 token2 username2 userId2 ip2 := by
  intro after
  have h : after = audit_context hasher token username userId ip :=
    setAuditLogContext_eq hasher ctx token username userId ip
  refine ⟨?_, ?_, ?_, ?_, ?_, h, ?_⟩
  · rw [h]; rfl
  · rw [h]; rfl
  · rw [h]; rfl
  · rw [h]; rfl
  · intro k h1 h2 h3 h4
    rw [h]
    simp [audit_context, h1, h2, h3, h4]
  · rw [setAuditLogContext_eq, setAuditLogContext_eq]

/-- Resolving the message of entry `j` gives `j`. -/
theorem _die_idx_of_message (j : Nat) (e : _WSError) (h : _errors[j]? = some e) :
    _die_idx 17 (some e.message) = .ok (j : Int) := by
  have hj : j < 18 := by
    by_contra hc
    have : _errors[j]? = none := List.getElem?_eq_none (by simp [_errors]; omega)
    rw [this] at h; cases h
  interval_cases j <;> (simp [_errors] at h; subst h; decide)

/-- C15: for every entry `i` of the catalog, its message resolves with
`_die_idx<17>` to `i`, the index its key resolves to, and to no other index. -/
theorem C15_message_resolves_like_key (i : Nat) (e : _WSError) (h : _errors[i]? = some e) :
    _die_idx 17 (some e.message) = .ok (i : Int) ∧
      _die_idx 17 (some e.key) = .ok (i : Int) ∧
      (∀ r : Int, _die_idx 17 (some e.message) = .ok r → r = i) := by
  have hm := _die_idx_of_message i e h
  refine ⟨hm, _die_idx_of_key i e h, ?_⟩
  intro r hr
  rw [hm] at hr
  cases hr
  rfl

/-- C15 at entry 3: `"Element '%s' not found."` and `"element-not-found"` both
resolve to 3. -/
theorem C15_message_resolves_like_key_witness :
    _die_idx 17 (some "Element '%s' not found.") = .ok 3 ∧
      _die_idx 17 (some "element-not-found") = .ok 3 :=
  ⟨(C15_message_resolves_like_key 3 _errors[3] (by decide)).1,
    (C15_message_resolves_like_key 3 _errors[3] (by decide)).2.1⟩

/-- C16: the catalog `_errors` has 18 entries, as `_WSErrorsCOUNT` says, the keys
of two entries at different indexes differ, and entry 0 has the key
`"undefined"`, the HTTP code 418 and the internal code `INT_MIN`, -2147483648. -/
theorem C16_catalog_shape :
    _errors.length = 18 ∧ _errors.length = _WSErrorsCOUNT ∧
      (_errors.map (fun e => e.key)).Nodup ∧
      (∀ (i j : Nat) (a b : _WSError), _errors[i]? = some a → _errors[j]? = some b →
        i ≠ j → a.key ≠ b.key) ∧
      (∃ e, _errors[0]? = some e ∧ e.key = "undefined" ∧ e.http_code = 418 ∧
        e.err_code = INT_MIN ∧ e.err_code = -2147483648) := by
  refine ⟨by decide, by decide, _errors_keys_nodup, ?_, ⟨_errors[0], by decide, by decide,
    by decide, by decide, by decide⟩⟩
  intro i j a b ha hb hij hk
  exact hij (_errors_key_inj i j a b ha hb hk)

/-- The entry of a key that resolves to `i`. -/
theorem key_entry_eq (key : String) (i : Nat) (hi : _die_idx 17 (some key) = .ok (i : Int)) :
    key_entry key = _errors[i]? := by
  simp [key_entry, hi]

/-- One call of `http_add_error` with a key that resolves to `i ≠ 0`: the status
is replaced and one entry is appended. -/
theorem http_add_error_eq (ext : Ext) (debug : String) (errors : http_errors_t) (key : String)
    (args : List String) (i : Nat) (hi : _die_idx 17 (some key) = .ok (i : Int)) (h0 : i ≠ 0) :
    ∃ e, key_entry key = some e ∧
      http_add_error ext debug errors key args = .ok
        { http_code := uint32_t e.http_code,
          errors := errors.errors ++ [batch_entry ext (debug, key, args)] } := by
  obtain ⟨r, hr, hle, _⟩ := _die_idx_resolve key
  rw [hi] at hr
  have hri : i = r := by cases hr; rfl
  subst hri
  have hk := key_idx_eq key i hi hle
  obtain ⟨e, he, hat⟩ := _errors_at_of_le i hle
  have hke : key_entry key = some e := by rw [key_entry_eq key i hi, he]
  refine ⟨e, hke, ?_⟩
  simp [http_add_error, hk, h0, hat, bind, Except.bind, pure, Except.pure, batch_entry, hke]

/-- A run of `http_add_error` calls whose keys all resolve to an index other
than 0: the entries are appended in order and the status is that of the last
call. -/
theorem http_add_error_all_eq (ext : Ext) (calls : List (String × String × List String))
    (hkeys : ∀ c ∈ calls, ∃ i : Nat, i ≠ 0 ∧ _die_idx 17 (some c.2.1) = .ok (i : Int))
    (errors : http_errors_t) :
    ∃ batch, http_add_error_all ext errors calls = .ok batch ∧
      batch.errors = errors.errors ++ calls.map (batch_entry ext) ∧
      (∀ c, calls.getLast? = some c →
        ∃ e, key_entry c.2.1 = some e ∧ batch.http_code = uint32_t e.http_code) := by
  induction calls generalizing errors with
  | nil =>
    exact ⟨errors, rfl, by simp, by intro c h; simp at h⟩
  | cons c rest ih =>
    obtain ⟨debug, key, args⟩ := c
    obtain ⟨i, h0, hi⟩ := hkeys (debug, key, args) (List.mem_cons_self _ _)
    obtain ⟨e, hke, hstep⟩ := http_add_error_eq ext debug errors key args i hi h0
    obtain ⟨batch, hb, herr, hlast⟩ := ih (fun c hc => hkeys c (List.mem_cons_of_mem _ hc))
      { http_code := uint32_t e.http_code,
        errors := errors.errors ++ [batch_entry ext (debug, key, args)] }
    refine ⟨batch, ?_, ?_, ?_⟩
    · simp only [http_add_error_all, hstep, bind, Except.bind]
      exact hb
    · rw [herr]
      simp
    · intro c hc
      cases rest with
      | nil =>
        simp at hc
        subst hc
        simp only [http_add_error_all] at hb
        cases hb
        exact ⟨e, hke, rfl⟩
      | cons c2 rest2 =>
        rw [List.getLast?_cons_cons] at hc
        exact hlast c hc

/-- C12: from a batch without errors, `http_add_error` applied for the calls
`(debug, key, args)` of a list, every key resolving to an index other than 0,
leaves one entry per call, in the order of the calls; the entry of a call has
the internal code of its key and the debug string of the call; further calls
leave these entries in place and append theirs; and the `http_code` of the
batch, which `http_die_error` returns, is the HTTP code of the key of the last
call. -/
theorem C12_batch_accumulates (ext : Ext) (reply : Reply)
    (calls more : List (String × String × List String)) (errors : http_errors_t)
    (hkeys : ∀ c ∈ calls, ∃ i : Nat, i ≠ 0 ∧ _die_idx 17 (some c.2.1) = .ok (i : Int))
    (hmore : ∀ c ∈ more, ∃ i : Nat, i ≠ 0 ∧ _die_idx 17 (some c.2.1) = .ok (i : Int))
    (hempty : errors.errors = []) :
    ∃ batch, http_add_error_all ext errors calls = .ok batch ∧
      batch.errors.length = calls.length ∧
      batch.errors = calls.map (batch_entry ext) ∧
      (∀ c ∈ calls, ∃ e, key_entry c.2.1 = some e ∧
        ((batch_entry ext c).1 : Int) = e.err_code ∧ (batch_entry ext c).2.2 = c.1) ∧
      (∀ c, calls.getLast? = some c → ∃ e, key_entry c.2.1 = some e ∧
        (batch.http_code : Int) = e.http_code ∧
        (http_die_error ext reply batch).status = e.http_code) ∧
      (∃ batch2, http_add_error_all ext errors (calls ++ more) = .ok batch2 ∧
        batch2.errors = batch.errors ++ more.map (batch_entry ext)) := by
  obtain ⟨batch, hb, herr, hlast⟩ := http_add_error_all_eq ext calls hkeys errors
  rw [hempty, List.nil_append] at herr
  have hentry : ∀ c ∈ calls, ∃ e, key_entry c.2.1 = some e ∧
      ((batch_entry ext c).1 : Int) = e.err_code ∧ (batch_entry ext c).2.2 = c.1 := by
    intro c hc
    obtain ⟨i, h0, hi⟩ := hkeys c hc
    have hke := key_entry_eq c.2.1 i hi
    cases he : _errors[i]? with
    | none =>
      obtain ⟨r, hr, hle, _⟩ := _die_idx_resolve c.2.1
      rw [hi] at hr
      have hri : i = r := by cases hr; rfl
      subst hri
      obtain ⟨e, he2, _⟩ := _errors_at_of_le i hle
      rw [he] at he2
      cases he2
    | some e =>
      rw [he] at hke
      refine ⟨e, hke, ?_, ?_⟩
      · simp only [batch_entry, hke]
        exact (_errors_uint32 i e he).2 h0
      · simp only [batch_entry, hke]
  refine ⟨batch, hb, by rw [herr, List.length_map], herr, hentry, ?_, ?_⟩
  · intro c hc
    obtain ⟨e, hke, hcode⟩ := hlast c hc
    have hmem : c ∈ calls := List.mem_of_getLast?_eq_some hc
    obtain ⟨i, _, hi⟩ := hkeys c hmem
    have he : _errors[i]? = some e := by rw [← key_entry_eq c.2.1 i hi, hke]
    have h32 := (_errors_uint32 i e he).1
    refine ⟨e, hke, by rw [hcode]; exact h32, ?_⟩
    simp only [http_die_error, hcode]
    exact h32
  · have hall : ∀ c ∈ calls ++ more,
        ∃ i : Nat, i ≠ 0 ∧ _die_idx 17 (some c.2.1) = .ok (i : Int) := by
      intro c hc
      rcases List.mem_append.mp hc with h | h
      · exact hkeys c h
      · exact hmore c h
    obtain ⟨batch2, hb2, herr2, _⟩ := http_add_error_all_eq ext (calls ++ more) hall errors
    refine ⟨batch2, hb2, ?_⟩
    rw [herr2, hempty, herr]
    simp

/-- C12 for `"bad-input"` followed by `"data-conflict"`: the codes are 57 and 50,
in that order, and the status is 409. -/
theorem C12_batch_accumulates_witness :
    ∃ batch, http_add_error_all sampleExt ⟨0, []⟩
        [("d1", "bad-input", ["x"]), ("d2", "data-conflict", ["a", "b"])] = .ok batch ∧
      batch.errors.map (fun t => t.1) = [57, 50] ∧
      batch.errors.map (fun t => t.2.2) = ["d1", "d2"] ∧
      (http_die_error sampleExt ⟨"", ""⟩ batch).status = 409 := by
  obtain ⟨batch, hb, _, herr, _, hlast, _⟩ := C12_batch_accumulates sampleExt ⟨"", ""⟩
    [("d1", "bad-input", ["x"]), ("d2", "data-conflict", ["a", "b"])] [] ⟨0, []⟩
    (by
      intro c hc
      simp only [List.mem_cons, List.mem_singleton, List.not_mem_nil, or_false] at hc
      rcases hc with h | h
      · exact ⟨15, by decide, by rw [h]; decide⟩
      · exact ⟨8, by decide, by rw [h]; decide⟩)
    (by intro c hc; cases hc) rfl
  refine ⟨batch, hb, ?_, ?_, ?_⟩
  · rw [herr]; decide
  · rw [herr]; decide
  · obtain ⟨e, hke, _, hst⟩ := hlast ("d2", "data-conflict", ["a", "b"]) (by decide)
    rw [hst]
    have h8 : key_entry "data-conflict" = some _errors[8] := by decide
    rw [h8] at hke
    cases hke
    decide

/-! ## Claims on the index handed to the lower layer and on the sentinel -/

/-- An index in `0..17` and its negative are normalised to the index. -/
theorem http_die_idx_normalise_small (i : Nat) (h : i ≤ 17) :
    http_die_idx_normalise (i : Int) = i ∧ http_die_idx_normalise (-(i : Int)) = i := by
  simp only [http_die_idx_normalise, int64_t, _WSErrorsCOUNT]
  norm_num
  constructor <;> split_ifs <;> omega

/-- The macro `http_die_idx` on an index whose normalised value is `i ≤ 17`. -/
theorem http_die_idx_eq (ext : Ext) (getenv : Option String) (site : CallSite) (reply : Reply)
    (idx : Int) (msg : String) (i : Nat) (e : _WSError) (hle : i ≤ 17)
    (hn : http_die_idx_normalise idx = i) (he : _errors[i]? = some e) :
    http_die_idx ext getenv site reply idx msg = .ok (error_reply ext getenv site reply msg
      (uint32_t e.err_code) (uint32_t e.http_code)) := by
  obtain ⟨e2, he2, hat⟩ := _errors_at_of_le i hle
  rw [he] at he2
  cases he2
  have hs := size_t_of_le i hle
  simp only [http_die_idx, hn, hs, hat, bind, Except.bind, pure, Except.pure, error_reply]
  split <;> rfl

/-- C17: for a key that resolves to an index `i` in `1..17`, which is the index
`bios_error_idx` stores and `bios_throw` throws, `http_die_idx` with `i` and with
`-i` returns the HTTP code of entry `i` and writes the body with the internal
code of entry `i`, as `http_die` does with the key. -/
theorem C17_index_raise_agrees_with_key (ext : Ext) (getenv : Option String) (site : CallSite)
    (reply : Reply) (key : String) (args : List String) (msg : String) (i : Nat)
    (hi : _die_idx 17 (some key) = .ok (i : Int)) (h0 : i ≠ 0) :
    ∃ (e : _WSError) (code : Nat), 1 ≤ i ∧ i ≤ 17 ∧ _errors[i]? = some e ∧
      (code : Int) = e.err_code ∧
      bios_error_idx ext key args = .ok (i, (_die_asprintf ext e.message args).1) ∧
      bios_throw ext key args
        = .ok { idx := i, message := (_die_asprintf ext e.message args).1 } ∧
      http_die_idx ext getenv site reply (i : Int) msg
        = .ok (error_reply ext getenv site reply msg code e.http_code) ∧
      http_die_idx ext getenv site reply (-(i : Int)) msg
        = .ok (error_reply ext getenv site reply msg code e.http_code) ∧
      http_die ext getenv site reply key args = .ok (error_reply ext getenv site reply
        (_die_asprintf ext e.message args).1 code e.http_code) := by
  obtain ⟨r, hr, hle, _⟩ := _die_idx_resolve key
  rw [hi] at hr
  have hri : i = r := by cases hr; rfl
  subst hri
  obtain ⟨e, he, hat⟩ := _errors_at_of_le i hle
  have hk := key_idx_eq key i hi hle
  have h32 := _errors_uint32 i e he
  have hsmall := http_die_idx_normalise_small i hle
  refine ⟨e, uint32_t e.err_code, by omega, hle, he, h32.2 h0, ?_, ?_, ?_, ?_,
    http_die_eq ext getenv site reply key args i e hi h0 hle he⟩
  · simp [bios_error_idx, hk, h0, hat, bind, Except.bind, pure, Except.pure]
  · simp [bios_throw, hk, h0, hat, bind, Except.bind, pure, Except.pure]
  · rw [http_die_idx_eq ext getenv site reply (i : Int) msg i e hle hsmall.1 he, h32.1]
  · rw [http_die_idx_eq ext getenv site reply (-(i : Int)) msg i e hle hsmall.2 he, h32.1]

/-- C17 at the key `"internal-error"`, index 1: raising by `-1` gives the status
500 and the code 42 of `http_die("internal-error", ...)`. -/
theorem C17_index_raise_agrees_with_key_witness :
    ∃ d d2, http_die_idx sampleExt none ⟨"handler.cc", 10⟩ ⟨"", ""⟩ (-1) "m" = .ok d ∧
      http_die sampleExt none ⟨"handler.cc", 10⟩ ⟨"", ""⟩ "internal-error" ["x"] = .ok d2 ∧
      d.status = 500 ∧ d2.status = 500 ∧ d.reply.out = "m|42" ∧
      d2.reply.out = "Internal Server Error. %s|x|42" := by
  obtain ⟨e, code, _, _, he, hc, _, _, _, hneg, hkey⟩ := C17_index_raise_agrees_with_key
    sampleExt none ⟨"handler.cc", 10⟩ ⟨"", ""⟩ "internal-error" ["x"] "m" 1 (by decide)
    (by decide)
  have he1 : e = _errors[1] := by
    have h1 : _errors[1]? = some _errors[1] := by decide
    rw [h1] at he
    cases he
    rfl
  subst he1
  have hcode : code = 42 := by
    have : (code : Int) = 42 := hc
    exact_mod_cast this
  subst hcode
  exact ⟨_, _, hneg, hkey, by decide, by decide, by decide, by decide⟩

/-- C19, refuted at a concrete call: `http_die("undefined")` is not accepted, it
gives no response at all. -/
theorem C19_undefined_key_counterexample :
    ¬ ∃ d, http_die sampleExt none ⟨"handler.cc", 10⟩ ⟨"", ""⟩ "undefined" [] = .ok d ∧
      d.status = 418 := by
  rintro ⟨d, hd, _⟩
  have h : http_die sampleExt none ⟨"handler.cc", 10⟩ ⟨"", ""⟩ "undefined" []
      = .error (.static_assert (cant_find "undefined")) := by decide
  rw [h] at hd
  cases hd

/-- C19 as amended: the key `"undefined"` resolves to 0, which is what the
resolver returns for a key it does not find, and `http_die`, `http_add_error`,
`bios_error_idx` and `bios_throw` reject it at their `static_assert`; the
response of entry 0, with status 418, comes from `http_die_idx` with the index
0. -/
theorem C19_undefined_key_rejected (ext : Ext) (getenv : Option String) (site : CallSite)
    (reply : Reply) (debug : String) (errors : http_errors_t) (args : List String)
    (msg : String) :
    _die_idx 17 (some "undefined") = .ok 0 ∧
      _die_idx 17 (some "no-such-key") = .ok 0 ∧
      http_die ext getenv site reply "undefined" args
        = .error (.static_assert (cant_find "undefined")) ∧
      http_add_error ext debug errors "undefined" args
        = .error (.static_assert (cant_find "undefined")) ∧
      bios_error_idx ext "undefined" args = .error (.static_assert (cant_find "undefined")) ∧
      bios_throw ext "undefined" args = .error (.static_assert (cant_find "undefined")) ∧
      http_die_idx ext getenv site reply 0 msg
        = .ok (error_reply ext getenv site reply msg (uint32_t INT_MIN) 418) := by
  have hk : __http_die__key_idx__ "undefined"
      = .error (.static_assert (cant_find "undefined")) := by decide
  refine ⟨by decide, by decide, ?_, ?_, ?_, ?_, ?_⟩
  · simp [http_die, hk, bind, Except.bind]
  · simp [http_add_error, hk, bind, Except.bind]
  · simp [bios_error_idx, hk, bind, Except.bind]
  · simp [bios_throw, hk, bind, Except.bind]
  · rw [http_die_idx_eq ext getenv site reply 0 msg 0 _errors[0] (by decide) (by decide)
      (by decide)]
    rfl

/-- C20, at the input it fails on: the string of the documentation of `http_die`,
`"Internal Server Error: %s"`, is no message of the catalog (the message of
`"internal-error"` is `"Internal Server Error. %s"`, with a full stop); it
resolves to 0, not to 1, and `http_die` rejects it. -/
theorem C20_documented_message_rejected (ext : Ext) (getenv : Option String) (site : CallSite)
    (reply : Reply) (args : List String) :
    _die_idx 17 (some "Internal Server Error: %s") = .ok 0 ∧
      _die_idx 17 (some "internal-error") = .ok 1 ∧
      _die_idx 17 (some "Internal Server Error. %s") = .ok 1 ∧
      (∃ e, _errors[1]? = some e ∧ e.key = "internal-error" ∧
        e.message = "Internal Server Error. %s") ∧
      http_die ext getenv site reply "Internal Server Error: %s" args
        = .error (.static_assert (cant_find "Internal Server Error: %s")) := by
  have hk : __http_die__key_idx__ "Internal Server Error: %s"
      = .error (.static_assert (cant_find "Internal Server Error: %s")) := by decide
  refine ⟨by decide, by decide, by decide, ⟨_errors[1], by decide, by decide, by decide⟩, ?_⟩
  simp [http_die, hk, bind, Except.bind]

/-! ## The round trip through the encoder -/

theorem intercalate_cons_cons (sep a b : String) (l : List String) :
    String.intercalate sep (a :: b :: l) = a ++ sep ++ String.intercalate sep (b :: l) := by
  simp only [String.intercalate, String.intercalate.go]
  exact intercalate_go_prepend (a ++ sep) b sep l

theorem items_chars_eq {β : Type} (enc : β → String) (x : β) (l : List β) :
    (String.intercalate ", " (List.map enc (x :: l))).data ++ [' ', ']']
      = items_chars enc (x :: l) := by
  induction l generalizing x with
  | nil => simp [String.intercalate, String.intercalate.go, items_chars]
  | cons y l ih =>
    rw [List.map_cons, List.map_cons, intercalate_cons_cons, ← List.map_cons]
    simp only [String.data_append, List.append_assoc, items_chars]
    rw [ih y]
    rfl

theorem jsonify_iterable_data {β : Type} (enc : β → String) (x : β) (l : List β) :
    (jsonify_iterable enc (x :: l)).data = '[' :: ' ' :: items_chars enc (x :: l) := by
  rw [jsonify_iterable_eq, ← items_chars_eq]
  simp only [String.data_append, List.append_assoc]
  rfl

theorem items_chars_length {β : Type} (enc : β → String) (x : β) (l : List β) :
    (x :: l).length + 1 ≤ (items_chars enc (x :: l)).length ∧
      (enc x).length + 2 ≤ (items_chars enc (x :: l)).length := by
  induction l generalizing x with
  | nil =>
    simp only [items_chars, List.length_append, List.length_cons, List.length_nil]
    have : (enc x).length = (enc x).data.length := rfl
    omega
  | cons y l ih =>
    have h := ih y
    simp only [items_chars, List.length_append, List.length_cons] at h ⊢
    have : (enc x).length = (enc x).data.length := rfl
    omega

theorem digitChar_dec (m : Nat) (h : m < 10) :
    is_dec (Nat.digitChar m) ∧ (Nat.digitChar m).toNat - 48 = m := by
  interval_cases m <;>
    exact ⟨⟨by decide, by decide, by decide, by decide, by decide, by decide, by decide,
      by decide⟩, by decide⟩

theorem toDigitsCore_dec (fuel n : Nat) (ds : List Char) (hds : ∀ c ∈ ds, is_dec c) :
    ∀ c ∈ Nat.toDigitsCore 10 fuel n ds, is_dec c := by
  induction fuel generalizing n ds with
  | zero => simpa [Nat.toDigitsCore] using hds
  | succ f ih =>
    have hd := (digitChar_dec (n % 10) (Nat.mod_lt _ (by decide))).1
    have hds2 : ∀ c ∈ Nat.digitChar (n % 10) :: ds, is_dec c := by
      intro c hc
      rcases List.mem_cons.mp hc with h | h
      · rw [h]; exact hd
      · exact hds c h
    simp only [Nat.toDigitsCore]
    split
    · exact hds2
    · exact ih _ _ hds2

theorem toDigitsCore_ne_nil (fuel n : Nat) (ds : List Char) (h : 0 < fuel) :
    Nat.toDigitsCore 10 fuel n ds ≠ [] := by
  induction fuel generalizing n ds with
  | zero => omega
  | succ f ih =>
    simp only [Nat.toDigitsCore]
    split
    · simp
    · cases f with
      | zero => simp [Nat.toDigitsCore]
      | succ g => exact ih _ _ (by omega)

theorem toDigitsCore_value (fuel n : Nat) (ds : List Char) (h : n < fuel) :
    dec_value 0 (Nat.toDigitsCore 10 fuel n ds) = dec_value n ds := by
  induction fuel generalizing n ds with
  | zero => omega
  | succ f ih =>
    have hd := (digitChar_dec (n % 10) (Nat.mod_lt _ (by decide))).2
    simp only [Nat.toDigitsCore]
    split
    · rename_i h0
      simp only [dec_value, List.foldl_cons, hd]
      congr 1
      omega
    · rename_i h0
      rw [ih (n / 10) _ (by omega)]
      simp only [dec_value, List.foldl_cons, hd]
      congr 1
      omega

theorem parse_digits_append (l rest : List Char) (acc : Nat) (hl : ∀ c ∈ l, is_dec c)
    (hrest : rest = [] ∨ ∃ tl, rest = ',' :: tl ∨ rest = ' ' :: tl) :
    parse_digits (l ++ rest) acc = (dec_value acc l, rest) := by
  induction l generalizing acc with
  | nil =>
    rcases hrest with h | ⟨tl, h | h⟩ <;> (subst h; rfl)
  | cons c l ih =>
    have hc := (hl c (List.mem_cons_self _ _)).1
    have hstep : parse_digits (c :: l ++ rest) acc
        = parse_digits (l ++ rest) (acc * 10 + (c.toNat - 48)) := by
      simp only [List.cons_append, parse_digits, hc, if_true]
      rfl
    rw [hstep, ih _ (fun d hd => hl d (List.mem_cons_of_mem _ hd))]
    rfl

theorem parse_digits_to_string (m : Nat) (rest : List Char)
    (hrest : rest = [] ∨ ∃ tl, rest = ',' :: tl ∨ rest = ' ' :: tl) :
    (∀ c ∈ (toString m).data, is_dec c) ∧ (toString m).data ≠ [] ∧
      parse_digits ((toString m).data ++ rest) 0 = (m, rest) := by
  have hdata : (toString m).data = Nat.toDigitsCore 10 (m + 1) m [] := rfl
  have hdec := toDigitsCore_dec (m + 1) m [] (by simp)
  refine ⟨by rw [hdata]; exact hdec, by rw [hdata]; exact toDigitsCore_ne_nil _ _ _ (by omega), ?_⟩
  rw [hdata, parse_digits_append _ _ _ hdec hrest, toDigitsCore_value _ _ _ (by omega)]
  rfl

theorem parse_int_to_string (n : Int) (rest : List Char)
    (hrest : rest = [] ∨ ∃ tl, rest = ',' :: tl ∨ rest = ' ' :: tl) :
    parse_int ((toString n).data ++ rest) = some (n, rest) := by
  cases n with
  | ofNat m =>
    obtain ⟨hdec, hne, hread⟩ := parse_digits_to_string m rest hrest
    have hs : (toString (Int.ofNat m)).data = (toString m).data := rfl
    rw [hs]
    cases hd : (toString m).data with
    | nil => exact absurd hd hne
    | cons c l =>
      rw [hd] at hdec hread
      have hc := hdec c (List.mem_cons_self _ _)
      simp only [List.cons_append, parse_int, hc.2.1, if_false, hc.1, if_true]
      rw [List.cons_append] at hread
      rw [hread]
      rfl
  | negSucc m =>
    obtain ⟨hdec, hne, hread⟩ := parse_digits_to_string (m + 1) rest hrest
    have hs : (toString (Int.negSucc m)).data = '-' :: (toString (m + 1)).data := rfl
    rw [hs]
    cases hd : (toString (m + 1)).data with
    | nil => exact absurd hd hne
    | cons c l =>
      rw [hd] at hdec hread
      have hc := hdec c (List.mem_cons_self _ _)
      simp only [List.cons_append, parse_int, if_true, hc.1]
      rw [List.cons_append] at hread
      rw [hread]
      rfl

/-! ## Claims on the table and on `_strcmp` -/

/-- The index of an entry of the catalog is below 18. -/
theorem _errors_index_lt (i : Nat) (e : _WSError) (h : _errors[i]? = some e) : i < 18 := by
  by_contra hc
  have : _errors[i]? = none := List.getElem?_eq_none (by simp [_errors]; omega)
  rw [this] at h
  cases h

/-- The HTTP code of an entry other than entry 0 is one of the ten raise codes,
and only entry 0 has the code 418. -/
theorem _errors_http_code (i : Nat) (e : _WSError) (h : _errors[i]? = some e) :
    (e.http_code = 418 ↔ i = 0) ∧ (i ≠ 0 → e.http_code ∈ raise_codes) := by
  have hi := _errors_index_lt i e h
  interval_cases i <;> (simp [_errors] at h; subst h; decide)

/-- The normalised index is below 18 for every `idx`. -/
theorem http_die_idx_normalise_lt (idx : Int) : http_die_idx_normalise idx < 18 := by
  simp only [http_die_idx_normalise, int64_t, _WSErrorsCOUNT]
  norm_num
  split_ifs <;> omega

/-- C21: the HTTP codes of the catalog are exactly 400, 401, 403, 404, 405, 409,
412, 413, 500, 502 and 418; the code 418 belongs to entry 0 only; so `http_die`
with a key that resolves to an index other than 0, and `http_die_idx` with an
index normalised to a value other than 0, return one of the other ten codes. -/
theorem C21_status_codes (ext : Ext) (getenv : Option String) (site : CallSite)
    (reply : Reply) (key : String) (args : List String) (idx : Int) (msg : String) :
    (∀ c : Int, c ∈ _errors.map (fun e => e.http_code) ↔ c ∈ raise_codes ∨ c = 418) ∧
    (∀ (i : Nat) (e : _WSError), _errors[i]? = some e → (e.http_code = 418 ↔ i = 0)) ∧
    (∀ (i : Nat) (e : _WSError), _errors[i]? = some e → i ≠ 0 → e.http_code ∈ raise_codes) ∧
    (418 : Int) ∉ raise_codes ∧
    (∀ i : Nat, _die_idx 17 (some key) = .ok (i : Int) → i ≠ 0 →
      ∃ d, http_die ext getenv site reply key args = .ok d ∧ d.status ∈ raise_codes) ∧
    (∀ i : Nat, http_die_idx_normalise idx = (i : Int) → i ≠ 0 →
      ∃ d, http_die_idx ext getenv site reply idx msg = .ok d ∧ d.status ∈ raise_codes) := by
  refine ⟨?_, fun i e h => (_errors_http_code i e h).1, fun i e h => (_errors_http_code i e h).2,
    by decide, ?_, ?_⟩
  · intro c
    constructor
    · intro hc
      obtain ⟨e, he, hec⟩ := List.mem_map.mp hc
      obtain ⟨i, hi⟩ := List.getElem?_of_mem he
      subst hec
      by_cases h0 : i = 0
      · exact Or.inr ((_errors_http_code i e hi).1.mpr h0)
      · exact Or.inl ((_errors_http_code i e hi).2 h0)
    · intro hc
      rcases hc with hc | hc
      · simp only [raise_codes, List.mem_cons, List.mem_singleton, List.not_mem_nil,
          or_false] at hc
        rcases hc with h | h | h | h | h | h | h | h | h | h <;> (subst h; decide)
      · subst hc
        decide
  · intro i hi h0
    obtain ⟨r, hr, hle, _⟩ := _die_idx_resolve key
    rw [hi] at hr
    have hri : i = r := by cases hr; rfl
    subst hri
    obtain ⟨e, he, _⟩ := _errors_at_of_le i hle
    exact ⟨_, http_die_eq ext getenv site reply key args i e hi h0 hle he,
      (_errors_http_code i e he).2 h0⟩
  · intro i hn h0
    have hlt := http_die_idx_normalise_lt idx
    have hle : i ≤ 17 := by
      rw [hn] at hlt
      omega
    obtain ⟨e, he, _⟩ := _errors_at_of_le i hle
    refine ⟨_, http_die_idx_eq ext getenv site reply idx msg i e hle hn he, ?_⟩
    show ((uint32_t e.http_code : Nat) : Int) ∈ raise_codes
    rw [(_errors_uint32 i e he).1]
    exact (_errors_http_code i e he).2 h0

/-- C21 at the key `"upstream-err"` and at the index -17: the status is 502. -/
theorem C21_status_codes_witness :
    (∃ d, http_die sampleExt none ⟨"handler.cc", 10⟩ ⟨"", ""⟩ "upstream-err" ["x"] = .ok d ∧
      d.status ∈ raise_codes) ∧
    (∃ d, http_die_idx sampleExt none ⟨"handler.cc", 10⟩ ⟨"", ""⟩ (-17) "m" = .ok d ∧
      d.status ∈ raise_codes) :=
  ⟨(C21_status_codes sampleExt none ⟨"handler.cc", 10⟩ ⟨"", ""⟩ "upstream-err" ["x"] (-17)
      "m").2.2.2.2.1 17 (by decide) (by decide),
    (C21_status_codes sampleExt none ⟨"handler.cc", 10⟩ ⟨"", ""⟩ "upstream-err" ["x"] (-17)
      "m").2.2.2.2.2 17 (by decide) (by decide)⟩

/-- C22: in every message of the catalog each `%` is directly followed by `s`,
and no message has more than 5 placeholders `%s` (none has more than 3). -/
theorem C22_templates_percent_s :
    (∀ (i : Nat) (e : _WSError), _errors[i]? = some e →
      ∀ j, e.message.data[j]? = some '%' → e.message.data[j + 1]? = some 's') ∧
    (∀ (i : Nat) (e : _WSError), _errors[i]? = some e → placeholders e.message ≤ 5) ∧
    (∀ (i : Nat) (e : _WSError), _errors[i]? = some e → placeholders e.message ≤ 3) ∧
    (∀ (i : Nat) (e : _WSError), _errors[i]? = some e →
      placeholders e.message = e.message.data.count '%') ∧
    (∃ e, _errors[6]? = some e ∧ placeholders e.message = 3) := by
  have hall : ∀ e ∈ _errors, percent_s_only e.message ∧ placeholders e.message ≤ 3 ∧
      placeholders e.message = e.message.data.count '%' := by decide
  refine ⟨?_, ?_, ?_, ?_, ⟨_errors[6], by decide, by decide⟩⟩
  · intro i e h j hj
    have hmem : e ∈ _errors := List.getElem?_mem h
    have hlt : j < e.message.data.length := by
      by_contra hc
      have : e.message.data[j]? = none := List.getElem?_eq_none (by omega)
      rw [this] at hj
      cases hj
    exact (hall e hmem).1 j hlt hj
  · intro i e h
    have := (hall e (List.getElem?_mem h)).2.1
    omega
  · intro i e h
    exact (hall e (List.getElem?_mem h)).2.1
  · intro i e h
    exact (hall e (List.getElem?_mem h)).2.2

/-- C23: `http_die_idx` writes the body with the internal code of the entry
converted to `uint32_t`: for a normalised index in `1..17` that is the code of
the entry itself, for the normalised index 0 it is 2147483648, while the code of
entry 0 is `INT_MIN`, which is negative. -/
theorem C23_index_path_code_uint32 (ext : Ext) (getenv : Option String) (site : CallSite)
    (reply : Reply) (idx : Int) (msg : String) (i : Nat) (hi : i ≤ 17)
    (hn : http_die_idx_normalise idx = (i : Int)) :
    ∃ (e : _WSError) (code : Nat), _errors[i]? = some e ∧ code = uint32_t e.err_code ∧
      http_die_idx ext getenv site reply idx msg
        = .ok (error_reply ext getenv site reply msg code e.http_code) ∧
      (i ≠ 0 → (code : Int) = e.err_code) ∧
      (i = 0 → code = 2147483648 ∧ e.err_code = INT_MIN ∧ e.err_code = -2147483648 ∧
        (code : Int) ≠ e.err_code ∧ (code : Int) = e.err_code % 2 ^ 32) := by
  obtain ⟨e, he, _⟩ := _errors_at_of_le i hi
  have h32 := _errors_uint32 i e he
  refine ⟨e, uint32_t e.err_code, he, rfl, ?_, h32.2, ?_⟩
  · rw [http_die_idx_eq ext getenv site reply idx msg i e hi hn he, h32.1]
  · intro h0
    subst h0
    have h0e : _errors[0]? = some _errors[0] := by decide
    rw [h0e] at he
    cases he
    decide

/-- C23 at the indexes 0 and -3 with the sample error body: the codes written are
2147483648 and 44. -/
theorem C23_index_path_code_uint32_witness :
    (∃ d, http_die_idx sampleExt none ⟨"handler.cc", 10⟩ ⟨"", ""⟩ 0 "m" = .ok d ∧
      d.reply.out = "m|2147483648") ∧
    (∃ d, http_die_idx sampleExt none ⟨"handler.cc", 10⟩ ⟨"", ""⟩ (-3) "m" = .ok d ∧
      d.reply.out = "m|44") := by
  constructor
  · obtain ⟨e, code, _, _, hd, _, h0⟩ := C23_index_path_code_uint32 sampleExt none
      ⟨"handler.cc", 10⟩ ⟨"", ""⟩ 0 "m" 0 (by decide) (by decide)
    have hc := (h0 rfl).1
    subst hc
    refine ⟨_, hd, ?_⟩
    simp only [error_reply, http_die_contenttype, http_die_contenttype_graceful]
    decide
  · obtain ⟨e, code, he, _, hd, h1, _⟩ := C23_index_path_code_uint32 sampleExt none
      ⟨"handler.cc", 10⟩ ⟨"", ""⟩ (-3) "m" 3 (by decide) (by decide)
    have h3 : _errors[3]? = some _errors[3] := by decide
    rw [h3] at he
    cases he
    have hc : code = 44 := by
      have : (code : Int) = 44 := h1 (by decide)
      exact_mod_cast this
    subst hc
    refine ⟨_, hd, ?_⟩
    simp only [error_reply, http_die_contenttype, http_die_contenttype_graceful]
    decide

/-- The internal codes of the catalog increase with the index. -/
theorem _errors_err_code_sorted :
    (_errors.map (fun e => e.err_code)).Pairwise (fun a b => a < b) := by decide

/-- C24: the internal codes of the catalog increase strictly with the index, so
two entries at different indexes have different codes, also after the conversion
to `uint32_t`; the code of entry 0 is `INT_MIN` and the codes of the entries
`1..17` are between 42 and 59. -/
theorem C24_codes_strictly_increasing :
    (∀ (i j : Nat) (a b : _WSError), _errors[i]? = some a → _errors[j]? = some b →
      i < j → a.err_code < b.err_code) ∧
    (∀ (i j : Nat) (a b : _WSError), _errors[i]? = some a → _errors[j]? = some b →
      a.err_code = b.err_code → i = j) ∧
    (∀ (i j : Nat) (a b : _WSError), _errors[i]? = some a → _errors[j]? = some b →
      uint32_t a.err_code = uint32_t b.err_code → i = j) ∧
    (∃ e, _errors[0]? = some e ∧ e.err_code = INT_MIN) ∧
    (∀ (i : Nat) (e : _WSError), _errors[i]? = some e → i ≠ 0 →
      42 ≤ e.err_code ∧ e.err_code ≤ 59) := by
  have hlt : ∀ (i j : Nat) (a b : _WSError), _errors[i]? = some a → _errors[j]? = some b →
      i < j → a.err_code < b.err_code := by
    intro i j a b ha hb hij
    have hj : j < (_errors.map (fun e => e.err_code)).length := by
      have := _errors_index_lt j b hb
      simp [_errors]
      omega
    have h := (List.pairwise_iff_getElem.mp _errors_err_code_sorted) i j (by omega) hj hij
    have hia : (_errors.map (fun e => e.err_code))[i]? = some a.err_code := by
      simp [List.getElem?_map, ha]
    have hjb : (_errors.map (fun e => e.err_code))[j]? = some b.err_code := by
      simp [List.getElem?_map, hb]
    rw [List.getElem?_eq_getElem (by omega)] at hia
    rw [List.getElem?_eq_getElem hj] at hjb
    rw [← Option.some.inj hia, ← Option.some.inj hjb]
    exact h
  have hrange : ∀ (i : Nat) (e : _WSError), _errors[i]? = some e → i ≠ 0 →
      42 ≤ e.err_code ∧ e.err_code ≤ 59 := by
    intro i e h h0
    have hi := _errors_index_lt i e h
    interval_cases i <;> first | exact absurd rfl h0 | (simp [_errors] at h; subst h; decide)
  have hinj : ∀ (i j : Nat) (a b : _WSError), _errors[i]? = some a → _errors[j]? = some b →
      a.err_code = b.err_code → i = j := by
    intro i j a b ha hb hab
    rcases Nat.lt_trichotomy i j with h | h | h
    · have := hlt i j a b ha hb h
      omega
    · exact h
    · have := hlt j i b a hb ha h
      omega
  refine ⟨hlt, hinj, ?_, ⟨_errors[0], by decide, by decide⟩, hrange⟩
  intro i j a b ha hb hab
  by_cases hi0 : i = 0
  · by_cases hj0 : j = 0
    · rw [hi0, hj0]
    · exfalso
      subst hi0
      have h0e : _errors[0]? = some _errors[0] := by decide
      rw [h0e] at ha
      cases ha
      have h1 := (_errors_uint32 j b hb).2 hj0
      have h2 := (hrange j b hb hj0).2
      have h3 : uint32_t (_errors[0]).err_code = 2147483648 := by decide
      rw [h3] at hab
      rw [← hab] at h1
      omega
  · by_cases hj0 : j = 0
    · exfalso
      subst hj0
      have h0e : _errors[0]? = some _errors[0] := by decide
      rw [h0e] at hb
      cases hb
      have h1 := (_errors_uint32 i a ha).2 hi0
      have h2 := (hrange i a ha hi0).2
      have h3 : uint32_t (_errors[0]).err_code = 2147483648 := by decide
      rw [h3] at hab
      rw [hab] at h1
      omega
    · apply hinj i j a b ha hb
      rw [← (_errors_uint32 i a ha).2 hi0, ← (_errors_uint32 j b hb).2 hj0, hab]

/-- A text without NUL is its own C string. -/
theorem c_str_eq_self (a : String) (h : NUL ∉ a.data) : c_str a = a := by
  apply String.ext
  simp only [c_str]
  apply List.takeWhile_eq_self_iff.mpr
  intro c hc
  simp only [bne_iff_ne, ne_eq]
  intro hn
  exact h (hn ▸ hc)

/-- The recursion of `_strcmp` ends within one call more than the length of the
shorter C string. -/
theorem _strcmp_fuel_eq (a b : List Char) (fuel : Nat)
    (h : min (a.takeWhile (fun c => c != NUL)).length (b.takeWhile (fun c => c != NUL)).length
      < fuel) :
    _strcmp_fuel fuel a b = some (_strcmp_at a b) := by
  induction a generalizing b fuel with
  | nil =>
    cases fuel with
    | zero => omega
    | succ f => simp [_strcmp_fuel, _strcmp_at, deref]
  | cons ca a1 ih =>
    cases fuel with
    | zero => omega
    | succ f =>
      by_cases ha : ca = NUL
      · simp [_strcmp_fuel, _strcmp_at, deref, ha]
      · cases b with
        | nil => simp [_strcmp_fuel, _strcmp_at, deref, ha]
        | cons cb b1 =>
          by_cases hb : cb = NUL
          · simp [_strcmp_fuel, _strcmp_at, deref, ha, hb]
          · by_cases hab : ca = cb
            · have hrec := ih b1 f (by
                simp only [List.takeWhile_cons, bne_iff_ne, ne_eq, ha, hb, not_false_eq_true,
                  decide_True, if_true, List.length_cons] at h
                omega)
              simp [_strcmp_fuel, _strcmp_at, deref, ha, hb, hab, hrec]
            · simp [_strcmp_fuel, _strcmp_at, deref, ha, hb, hab]

/-- C25: `_strcmp` returns `false` when a pointer is null; on two non-null
strings it returns `true` exactly when their C strings are equal, which for texts
without NUL means the same length and the same characters; and its recursion
ends: a depth of one more than the length of the shorter C string gives the
result. -/
theorem C25_strcmp_decides_equality (a b : String) (p : Option String) :
    _strcmp none p = false ∧ _strcmp p none = false ∧
    (_strcmp (some a) (some b) = true ↔ c_str a = c_str b) ∧
    (NUL ∉ a.data → NUL ∉ b.data → (_strcmp (some a) (some b) = true ↔ a = b)) ∧
    (NUL ∉ a.data → NUL ∉ b.data → (_strcmp (some a) (some b) = true ↔
      (a.length = b.length ∧ ∀ i, i < a.length → a.data[i]? = b.data[i]?))) ∧
    (∀ fuel, min (c_str a).length (c_str b).length < fuel →
      _strcmp_fuel fuel a.data b.data = some (_strcmp (some a) (some b))) := by
  have heq : NUL ∉ a.data → NUL ∉ b.data → (_strcmp (some a) (some b) = true ↔ a = b) := by
    intro ha hb
    rw [_strcmp_iff, c_str_eq_self a ha, c_str_eq_self b hb]
  refine ⟨rfl, by cases p <;> rfl, _strcmp_iff a b, heq, ?_, ?_⟩
  · intro ha hb
    rw [heq ha hb]
    constructor
    · intro h
      subst h
      exact ⟨rfl, fun _ _ => rfl⟩
    · rintro ⟨hlen, hch⟩
      apply String.ext
      apply List.ext_getElem?
      intro i
      have hl : a.length = a.data.length := rfl
      have hl2 : b.length = b.data.length := rfl
      by_cases hi : i < a.length
      · exact hch i hi
      · rw [List.getElem?_eq_none (by omega), List.getElem?_eq_none (by omega)]
  · intro fuel hf
    exact _strcmp_fuel_eq a.data b.data fuel hf

/-- C25 at `"not-found"`: equal to itself, different from `"not-founD"` and from
its prefix `"not"`, and the comparison of `"not-found"` with itself ends within
10 calls. -/
theorem C25_strcmp_decides_equality_witness :
    _strcmp (some "not-found") (some "not-found") = true ∧
      _strcmp (some "not-found") (some "not-founD") = false ∧
      _strcmp (some "not-found") (some "not") = false ∧
      _strcmp_fuel 10 "not-found".data "not-found".data = some true := by
  have h1 := (C25_strcmp_decides_equality "not-found" "not-found" none).2.2.2.1
    (by decide) (by decide)
  have h4 := (C25_strcmp_decides_equality "not-found" "not-found" none).2.2.2.2.2 10
    (by decide)
  rw [h1.mpr rfl] at h4
  refine ⟨h1.mpr rfl, ?_, ?_, h4⟩
  · have h2 := (C25_strcmp_decides_equality "not-found" "not-founD" none).2.2.2.1
      (by decide) (by decide)
    cases hb : _strcmp (some "not-found") (some "not-founD")
    · rfl
    · exact absurd (h2.mp hb) (by decide)
  · have h3 := (C25_strcmp_decides_equality "not-found" "not" none).2.2.2.1
      (by decide) (by decide)
    cases hb : _strcmp (some "not-found") (some "not")
    · rfl
    · exact absurd (h3.mp hb) (by decide)

/-! ## The index-based raise from the catalog size up -/

theorem parse_string_quote (fuel : Nat) (rest : List Char) :
    parse_string (fuel + 1) ('"' :: rest) = some ([], rest) := by
  rw [parse_string.eq_def]
  simp

theorem parse_string_escape (fuel : Nat) (d u : Char) (rest : List Char) (hd : d ≠ 'u')
    (hu : unescape_char d = some u) :
    parse_string (fuel + 1) ('\\' :: d :: rest)
      = (parse_string fuel rest).map (fun r => (u :: r.1, r.2)) := by
  rw [parse_string.eq_def]
  simp [hd, hu]

theorem parse_string_hex (fuel : Nat) (h1 h2 h3 h4 u : Char) (rest : List Char)
    (hu : unescape_hex h1 h2 h3 h4 = some u) :
    parse_string (fuel + 1) ('\\' :: 'u' :: h1 :: h2 :: h3 :: h4 :: rest)
      = (parse_string fuel rest).map (fun r => (u :: r.1, r.2)) := by
  rw [parse_string.eq_def]
  simp [hu]

theorem parse_string_plain (fuel : Nat) (c : Char) (rest : List Char) (h1 : c ≠ '"')
    (h2 : c ≠ '\\') (h3 : ¬ c.toNat < 32) :
    parse_string (fuel + 1) (c :: rest)
      = (parse_string fuel rest).map (fun r => (c :: r.1, r.2)) := by
  rw [parse_string.eq_def]
  simp [h1, h2, h3]

theorem unescape_hex_hex2 (n : Nat) (h : n < 32) :
    unescape_hex '0' '0' (Nat.digitChar (n / 16)) (Nat.digitChar (n % 16))
      = some (Char.ofNat n) := by
  interval_cases n <;> decide

/-- The reader of strings undoes `json_escape`, whatever follows the closing
double quote, with a fuel above the number of characters of the text. -/
theorem parse_string_json_escape (t rest : List Char) (fuel : Nat) (hf : t.length < fuel) :
    parse_string fuel (t.flatMap json_escape_char ++ '"' :: rest) = some (t, rest) := by
  induction t generalizing fuel with
  | nil =>
    cases fuel with
    | zero => simp at hf
    | succ f => exact parse_string_quote f rest
  | cons c t ih =>
    cases fuel with
    | zero => simp at hf
    | succ f =>
      have hrec := ih f (by simp at hf; omega)
      simp only [List.flatMap_cons, List.append_assoc]
      by_cases h1 : c = '"'
      · subst h1
        rw [show json_escape_char '"' = ['\\', '"'] from by decide]
        simp only [List.cons_append, List.nil_append]
        rw [parse_string_escape f '"' '"' _ (by decide) (by decide), hrec]
        rfl
      by_cases h2 : c = '\\'
      · subst h2
        rw [show json_escape_char '\\' = ['\\', '\\'] from by decide]
        simp only [List.cons_append, List.nil_append]
        rw [parse_string_escape f '\\' '\\' _ (by decide) (by decide), hrec]
        rfl
      by_cases h3 : c = '\x08'
      · subst h3
        rw [show json_escape_char '\x08' = ['\\', 'b'] from by decide]
        simp only [List.cons_append, List.nil_append]
        rw [parse_string_escape f 'b' '\x08' _ (by decide) (by decide), hrec]
        rfl
      by_cases h4 : c = '\x0c'
      · subst h4
        rw [show json_escape_char '\x0c' = ['\\', 'f'] from by decide]
        simp only [List.cons_append, List.nil_append]
        rw [parse_string_escape f 'f' '\x0c' _ (by decide) (by decide), hrec]
        rfl
      by_cases h5 : c = '\n'
      · subst h5
        rw [show json_escape_char '\n' = ['\\', 'n'] from by decide]
        simp only [List.cons_append, List.nil_append]
        rw [parse_string_escape f 'n' '\n' _ (by decide) (by decide), hrec]
        rfl
      by_cases h6 : c = '\r'
      · subst h6
        rw [show json_escape_char '\r' = ['\\', 'r'] from by decide]
        simp only [List.cons_append, List.nil_append]
        rw [parse_string_escape f 'r' '\r' _ (by decide) (by decide), hrec]
        rfl
      by_cases h7 : c = '\t'
      · subst h7
        rw [show json_escape_char '\t' = ['\\', 't'] from by decide]
        simp only [List.cons_append, List.nil_append]
        rw [parse_string_escape f 't' '\t' _ (by decide) (by decide), hrec]
        rfl
      by_cases h8 : c.toNat < 32
      · have hesc : json_escape_char c = '\\' :: 'u' :: '0' :: '0' :: hex2 c.toNat := by
          simp only [json_escape_char, h1, h2, h3, h4, h5, h6, h7, h8, if_false, if_true]
        rw [hesc]
        simp only [hex2, List.cons_append, List.nil_append]
        rw [parse_string_hex f _ _ _ _ _ _ (unescape_hex_hex2 c.toNat h8), hrec,
          Char.ofNat_toNat]
        rfl
      · have hesc : json_escape_char c = [c] := by
          simp only [json_escape_char, h1, h2, h3, h4, h5, h6, h7, h8, if_false]
        rw [hesc]
        simp only [List.cons_append, List.nil_append]
        rw [parse_string_plain f c _ h1 h2 h8, hrec]
        rfl

theorem json_escape_plain (l : List Char) (h : ∀ c ∈ l, json_escape_char c = [c]) :
    l.flatMap json_escape_char = l := by
  induction l with
  | nil => rfl
  | cons c l ih =>
    simp only [List.flatMap_cons, h c (List.mem_cons_self _ _), List.singleton_append]
    rw [ih (fun d hd => h d (List.mem_cons_of_mem _ hd))]

/-- The decimal text of an integer: its first character is no white space and no
opening bracket or double quote, and the escaping leaves the text as it is. -/
theorem to_string_int_chars (n : Int) :
    (∃ c tl, (toString n).data = c :: tl ∧ is_ws c = false ∧ c ≠ '[' ∧ c ≠ ']' ∧ c ≠ '"') ∧
      json_escape (toString n) = toString n := by
  have hnat : ∀ m : Nat, (∀ c ∈ (toString m).data, is_dec c) ∧ (toString m).data ≠ [] :=
    fun m => ⟨(parse_digits_to_string m [] (Or.inl rfl)).1, (parse_digits_to_string m [] (Or.inl rfl)).2.1⟩
  cases n with
  | ofNat m =>
    have hs : (toString (Int.ofNat m)).data = (toString m).data := rfl
    obtain ⟨hdec, hne⟩ := hnat m
    constructor
    · rw [hs]
      cases hd : (toString m).data with
      | nil => exact absurd hd hne
      | cons c l =>
        rw [hd] at hdec
        have hc := hdec c (List.mem_cons_self _ _)
        exact ⟨c, l, rfl, hc.2.2.2.2.2.1, hc.2.2.2.2.2.2.1, hc.2.2.2.2.2.2.2, hc.2.2.1⟩
    · apply String.ext
      simp only [json_escape]
      rw [hs]
      exact json_escape_plain _ (fun c hc => (hdec c hc).2.2.2.2.1)
  | negSucc m =>
    have hs : (toString (Int.negSucc m)).data = '-' :: (toString (m + 1)).data := rfl
    obtain ⟨hdec, _⟩ := hnat (m + 1)
    constructor
    · rw [hs]
      exact ⟨'-', _, rfl, by decide, by decide, by decide, by decide⟩
    · apply String.ext
      simp only [json_escape]
      rw [hs]
      apply json_escape_plain
      intro c hc
      rcases List.mem_cons.mp hc with h | h
      · rw [h]; decide
      · exact (hdec c h).2.2.2.2.1

theorem skip_ws_cons (c : Char) (rest : List Char) (h : is_ws c = false) :
    skip_ws (c :: rest) = c :: rest := by
  simp [skip_ws, h]

/-- The items of a non-empty array are read back, when each item is read back in
front of a comma or a blank and starts with a character that is no white
space. -/
theorem parse_elements_eq {β : Type} (enc : β → String) (tag : β → JsonAtom) (xs : List β)
    (hne : xs ≠ [])
    (hitem : ∀ x ∈ xs, ∀ rest, (∃ tl, rest = ',' :: tl ∨ rest = ' ' :: tl) →
      parse_atom ((enc x).data ++ rest) = some (tag x, rest))
    (hfirst : ∀ x ∈ xs, ∃ c tl, (enc x).data = c :: tl ∧ is_ws c = false)
    (fuel : Nat) (hfuel : xs.length ≤ fuel) (cs : List Char)
    (hcs : skip_ws cs = items_chars enc xs) :
    parse_elements fuel cs = some (xs.map tag, []) := by
  induction xs generalizing fuel cs with
  | nil => exact absurd rfl hne
  | cons x l ih =>
    cases fuel with
    | zero => simp at hfuel
    | succ f =>
      cases l with
      | nil =>
        have hx := hitem x (List.mem_cons_self _ _) [' ', ']'] ⟨[']'], Or.inr rfl⟩
        have hws : skip_ws [' ', ']'] = [']'] := by decide
        simp only [parse_elements, hcs, items_chars, hx, hws, List.map_cons, List.map_nil]
        simp
      | cons y l2 =>
        have hx := hitem x (List.mem_cons_self _ _) (',' :: ' ' :: items_chars enc (y :: l2))
          ⟨_, Or.inl rfl⟩
        obtain ⟨c, tl, hctl, hcws⟩ := hfirst y (List.mem_cons_of_mem _ (List.mem_cons_self _ _))
        have hitems : skip_ws (' ' :: items_chars enc (y :: l2)) = items_chars enc (y :: l2) := by
          have hsp : skip_ws (' ' :: items_chars enc (y :: l2))
              = skip_ws (items_chars enc (y :: l2)) := by
            simp [skip_ws, is_ws]
          rw [hsp]
          cases l2 with
          | nil =>
            simp only [items_chars, hctl, List.cons_append]
            exact skip_ws_cons c _ hcws
          | cons z l3 =>
            simp only [items_chars, hctl, List.cons_append]
            exact skip_ws_cons c _ hcws
        have hrec := ih (by simp) (fun z hz => hitem z (List.mem_cons_of_mem _ hz))
          (fun z hz => hfirst z (List.mem_cons_of_mem _ hz)) f (by simp at hfuel ⊢; omega)
          (' ' :: items_chars enc (y :: l2)) hitems
        have hcomma : skip_ws (',' :: ' ' :: items_chars enc (y :: l2))
            = ',' :: ' ' :: items_chars enc (y :: l2) := skip_ws_cons _ _ (by decide)
        simp only [parse_elements, hcs, items_chars, hx, hcomma, hrec]
        simp

/-- An encoded array is parsed to the array of its items, when each item is read
back in front of a comma or a blank and starts with a character that is no white
space and no closing bracket. -/
theorem json_parse_iterable {β : Type} (enc : β → String) (tag : β → JsonAtom) (xs : List β)
    (hitem : ∀ x ∈ xs, ∀ rest, (∃ tl, rest = ',' :: tl ∨ rest = ' ' :: tl) →
      parse_atom ((enc x).data ++ rest) = some (tag x, rest))
    (hfirst : ∀ x ∈ xs, ∃ c tl, (enc x).data = c :: tl ∧ is_ws c = false ∧ c ≠ ']') :
    json_parse (jsonify_iterable enc xs) = some (Json.arr (xs.map tag)) := by
  cases xs with
  | nil =>
    have h : (jsonify_iterable enc ([] : List β)).data = ['[', ' ', ' ', ']'] := rfl
    simp only [json_parse, h, List.map_nil]
    rfl
  | cons x l =>
    obtain ⟨c, tl, hctl, hcws, hcb⟩ := hfirst x (List.mem_cons_self _ _)
    have hlen := (items_chars_length enc x l).1
    obtain ⟨c2, rest2, hitems, hc2⟩ : ∃ c2 rest2, items_chars enc (x :: l) = c2 :: rest2 ∧
        c2 = c := by
      cases l with
      | nil =>
        exact ⟨c, tl ++ [' ', ']'], by simp only [items_chars, hctl, List.cons_append], rfl⟩
      | cons y l2 =>
        exact ⟨c, tl ++ ',' :: ' ' :: items_chars enc (y :: l2),
          by simp only [items_chars, hctl, List.cons_append], rfl⟩
    subst hc2
    have hskip : skip_ws (items_chars enc (x :: l)) = items_chars enc (x :: l) := by
      rw [hitems]
      exact skip_ws_cons c2 _ hcws
    have hpe := parse_elements_eq enc tag (x :: l) (by simp) hitem
      (fun z hz => by
        obtain ⟨c, tl, h1, h2, _⟩ := hfirst z hz
        exact ⟨c, tl, h1, h2⟩)
      ((items_chars enc (x :: l)).length + 1)
      (by simp only [List.length_cons] at hlen ⊢; omega)
      (c2 :: rest2) (by rw [← hitems]; exact hskip)
    have hopen : skip_ws ('[' :: ' ' :: items_chars enc (x :: l))
        = '[' :: ' ' :: items_chars enc (x :: l) := skip_ws_cons _ _ (by decide)
    have hsp : skip_ws (' ' :: items_chars enc (x :: l)) = c2 :: rest2 := by
      have : skip_ws (' ' :: items_chars enc (x :: l)) = skip_ws (items_chars enc (x :: l)) := by
        simp [skip_ws, is_ws]
      rw [this, hskip, hitems]
    simp only [json_parse, jsonify_iterable_data, parse_value, hopen, hsp, hcb, if_true,
      if_false, hpe, List.length_cons]
    simp [skip_ws]

theorem json_escape_length (l : List Char) : l.length ≤ (l.flatMap json_escape_char).length := by
  induction l with
  | nil => simp
  | cons c l ih =>
    have hc : 1 ≤ (json_escape_char c).length := by
      simp only [json_escape_char, hex2]
      split_ifs <;> simp
    simp only [List.flatMap_cons, List.length_append, List.length_cons]
    omega

/-- The scalar overload on an integer, with `json_escape` as the escaping: the
decimal text. -/
theorem jsonify_int_eq (ext : Ext) (hesc : ∀ s, ext.escape s = some (json_escape s))
    (n : Int) : jsonify_arithmetic ext to_string_int n = toString n := by
  simp [jsonify_arithmetic, to_string_int, hesc, (to_string_int_chars n).2, bind, Option.bind]

/-- The string overload on a text without the object shape, with `json_escape`
as the escaping: the characters of its output. -/
theorem jsonify_string_data (ext : Ext) (hesc : ∀ s, ext.escape s = some (json_escape s))
    (t : String) (ht : ¬ object_shaped t) :
    (jsonify_string ext t).data = '"' :: (t.data.flatMap json_escape_char ++ ['"']) := by
  have hb : already_json t = false := by
    cases hb : already_json t
    · rfl
    · exact absurd ((already_json_iff t).mp hb) ht
  rw [jsonify_string_quote ext t (json_escape t) hb (hesc t)]
  simp only [String.data_append, json_escape]
  rfl

/-- An encoded integer is read back as the integer in front of a comma, a blank
or the end. -/
theorem parse_atom_int (ext : Ext) (hesc : ∀ s, ext.escape s = some (json_escape s))
    (n : Int) (rest : List Char)
    (hrest : rest = [] ∨ ∃ tl, rest = ',' :: tl ∨ rest = ' ' :: tl) :
    parse_atom ((jsonify_arithmetic ext to_string_int n).data ++ rest)
      = some (JsonAtom.num n, rest) := by
  rw [jsonify_int_eq ext hesc n]
  have hread := parse_int_to_string n rest hrest
  obtain ⟨c, tl, hctl, _, _, _, hq⟩ := (to_string_int_chars n).1
  rw [hctl] at hread ⊢
  simp only [List.cons_append] at hread ⊢
  simp only [parse_atom, hq, if_false, hread]
  rfl

/-- An encoded string without the object shape is read back as the string,
whatever follows it. -/
theorem parse_atom_string (ext : Ext) (hesc : ∀ s, ext.escape s = some (json_escape s))
    (t : String) (ht : ¬ object_shaped t) (rest : List Char) :
    parse_atom ((jsonify_string ext t).data ++ rest) = some (JsonAtom.str t, rest) := by
  rw [jsonify_string_data ext hesc t ht]
  simp only [List.cons_append, List.append_assoc, List.nil_append, parse_atom, if_true]
  rw [parse_string_json_escape t.data rest _ (by
    have := json_escape_length t.data
    simp only [List.length_append, List.length_cons]
    omega)]
  rfl

/-- A text that starts with an opening brace is no number, string or array. -/
theorem parse_value_brace (tl : List Char) : parse_value ('\x7b' :: tl) = none := by
  have hws : skip_ws ('\x7b' :: tl) = '\x7b' :: tl := skip_ws_cons _ _ (by decide)
  have hat : parse_atom ('\x7b' :: tl) = none := by
    simp only [parse_atom, parse_int]
    rfl
  simp only [parse_value, hws, hat]
  rfl

theorem object_shaped_data (o : String) (ho : object_shaped o) :
    ∃ tl, o.data = '\x7b' :: tl := by
  obtain ⟨_, h0, _⟩ := ho
  cases hd : o.data with
  | nil => rw [hd] at h0; cases h0
  | cons c tl =>
    rw [hd] at h0
    simp only [List.head?_cons, Option.some.injEq] at h0
    exact ⟨tl, by rw [h0]⟩

/-- C18, refuted at concrete inputs.  The sequence with the one string
`{a}, {b}` and the sequence of the strings `{a}` and `{b}`, neither shaped like
an object, are both encoded as `[ {a}, {b} ]`; the floating scalars 0 and
`2^-30` are both encoded as `0.000000`.  So no parsing of the output gives back
the input, neither for the two sequences nor for the two scalars. -/
theorem C18_round_trip_counterexample :
    (¬ ∃ parse : String → Option (List String),
      parse (jsonify_iterable (jsonify_string sampleExt) ["\x7ba\x7d, \x7bb\x7d"])
          = some ["\x7ba\x7d, \x7bb\x7d"] ∧
        parse (jsonify_iterable (jsonify_string sampleExt) ["\x7ba\x7d", "\x7bb\x7d"])
          = some ["\x7ba\x7d", "\x7bb\x7d"]) ∧
    (¬ ∃ parse : String → Option ℚ,
      parse (jsonify_arithmetic sampleExt to_string_float ⟨false, 0, 0⟩)
          = some (FloatValue.value ⟨false, 0, 0⟩) ∧
        parse (jsonify_arithmetic sampleExt to_string_float ⟨false, 1, 30⟩)
          = some (FloatValue.value ⟨false, 1, 30⟩)) := by
  constructor
  · rintro ⟨parse, h1, h2⟩
    have heq : jsonify_iterable (jsonify_string sampleExt) ["\x7ba\x7d, \x7bb\x7d"]
        = jsonify_iterable (jsonify_string sampleExt) ["\x7ba\x7d", "\x7bb\x7d"] := by decide
    rw [heq, h2] at h1
    exact absurd h1 (by decide)
  · rintro ⟨parse, h1, h2⟩
    have heq : jsonify_arithmetic sampleExt to_string_float ⟨false, 0, 0⟩
        = jsonify_arithmetic sampleExt to_string_float ⟨false, 1, 30⟩ := by decide
    rw [heq, h2] at h1
    have hv : FloatValue.value ⟨false, 1, 30⟩ = FloatValue.value ⟨false, 0, 0⟩ :=
      Option.some.inj h1
    simp only [FloatValue.value] at hv
    norm_num at hv

/-- C18 as amended: with `UTF8::escape` the escaping of JSON, the output of
`jsonify` is parsed back to the input for every integer `n`, every string `t`
without the object shape, every sequence `ns` of integers and every sequence
`ts` of strings without the object shape.  A string `o` with the object shape is
written as it is, alone and as an item, and the output is not parsed to a
string; the floating scalars 0 and `2^-30` have the same output. -/
theorem C18_round_trip_amended (ext : Ext) (hesc : ∀ s, ext.escape s = some (json_escape s))
    (n : Int) (t : String) (ns : List Int) (ts : List String) (o : String)
    (ht : ¬ object_shaped t) (hts : ∀ x ∈ ts, ¬ object_shaped x) (ho : object_shaped o) :
    json_parse (jsonify_arithmetic ext to_string_int n) = some (Json.num n) ∧
    json_parse (jsonify_string ext t) = some (Json.str t) ∧
    json_parse (jsonify_iterable (jsonify_arithmetic ext to_string_int) ns)
      = some (Json.arr (ns.map JsonAtom.num)) ∧
    json_parse (jsonify_iterable (jsonify_string ext) ts)
      = some (Json.arr (ts.map JsonAtom.str)) ∧
    jsonify_string ext o = o ∧
    json_parse (jsonify_string ext o) = none ∧
    jsonify_iterable (jsonify_string ext) [o] = "[ " ++ o ++ " ]" ∧
    json_parse (jsonify_iterable (jsonify_string ext) [o]) = none ∧
    jsonify_arithmetic ext to_string_float ⟨false, 0, 0⟩
      = jsonify_arithmetic ext to_string_float ⟨false, 1, 30⟩ := by
  have ho2 : jsonify_string ext o = o := jsonify_string_pass ext o ((already_json_iff o).mpr ho)
  obtain ⟨otl, hotl⟩ := object_shaped_data o ho
  refine ⟨?_, ?_, ?_, ?_, ho2, ?_, ?_, ?_, ?_⟩
  · have hat := parse_atom_int ext hesc n [] (Or.inl rfl)
    rw [List.append_nil] at hat
    obtain ⟨c, tl, hctl, hws, hb, _, _⟩ := (to_string_int_chars n).1
    rw [jsonify_int_eq ext hesc n] at hat ⊢
    rw [hctl] at hat
    simp only [json_parse, parse_value, hctl, skip_ws_cons c tl hws, hb, if_false, hat]
    rfl
  · have hat := parse_atom_string ext hesc t ht []
    rw [List.append_nil] at hat
    have hd := jsonify_string_data ext hesc t ht
    rw [hd] at hat
    simp only [json_parse, parse_value, hd, skip_ws_cons '"' _ (by decide), hat]
    rfl
  · apply json_parse_iterable
    · intro x _ rest hrest
      exact parse_atom_int ext hesc x rest (Or.inr hrest)
    · intro x _
      obtain ⟨c, tl, hctl, hws, _, hb, _⟩ := (to_string_int_chars x).1
      exact ⟨c, tl, by rw [jsonify_int_eq ext hesc x, hctl], hws, hb⟩
  · apply json_parse_iterable
    · intro x hx rest _
      exact parse_atom_string ext hesc x (hts x hx) rest
    · intro x hx
      exact ⟨'"', _, jsonify_string_data ext hesc x (hts x hx), by decide, by decide⟩
  · rw [ho2]
    simp only [json_parse, hotl, parse_value_brace]
  · rw [jsonify_iterable_eq]
    simp only [List.map_cons, List.map_nil, ho2]
    rfl
  · have hd : (jsonify_iterable (jsonify_string ext) [o]).data
        = '[' :: ' ' :: '\x7b' :: (otl ++ [' ', ']']) := by
      rw [jsonify_iterable_data]
      simp only [items_chars, ho2, hotl, List.cons_append]
    have hopen : skip_ws ('[' :: ' ' :: '\x7b' :: (otl ++ [' ', ']']))
        = '[' :: ' ' :: '\x7b' :: (otl ++ [' ', ']']) := skip_ws_cons _ _ (by decide)
    have hsp : skip_ws (' ' :: '\x7b' :: (otl ++ [' ', ']'])) = '\x7b' :: (otl ++ [' ', ']']) := by
      have : skip_ws (' ' :: '\x7b' :: (otl ++ [' ', ']']))
          = skip_ws ('\x7b' :: (otl ++ [' ', ']'])) := by simp [skip_ws, is_ws]
      rw [this]
      exact skip_ws_cons _ _ (by decide)
    have hat : parse_atom ('\x7b' :: (otl ++ [' ', ']'])) = none := by
      simp only [parse_atom, parse_int]
      rfl
    have hbr : skip_ws ('\x7b' :: (otl ++ [' ', ']'])) = '\x7b' :: (otl ++ [' ', ']']) :=
      skip_ws_cons _ _ (by decide)
    simp only [json_parse, hd, parse_value, hopen, hsp, List.length_cons, parse_elements, hbr,
      hat]
    rfl
  · have hf : to_string_float ⟨false, 0, 0⟩ = to_string_float ⟨false, 1, 30⟩ := by decide
    simp only [jsonify_arithmetic, hf]

/-- C18 as amended, with `json_escape` as the escaping: the integer -12, the
string `hello "world"`, the integers 5, -12, 0 and the strings `a`, `hello
"world"`, a text with a backslash and a text with a newline and a control
character are parsed back, and the object-shaped `{"a":1}` is not parsed to a
string. -/
theorem C18_round_trip_amended_witness :
    json_parse (jsonify_arithmetic jsonExt to_string_int (-12)) = some (Json.num (-12)) ∧
      json_parse (jsonify_string jsonExt "hello \"world\"") = some (Json.str "hello \"world\"") ∧
      json_parse (jsonify_iterable (jsonify_arithmetic jsonExt to_string_int) [5, -12, 0])
        = some (Json.arr [JsonAtom.num 5, JsonAtom.num (-12), JsonAtom.num 0]) ∧
      json_parse (jsonify_iterable (jsonify_string jsonExt)
          ["a", "hello \"world\"", "b\\c", "x\ny\x01z"])
        = some (Json.arr [JsonAtom.str "a", JsonAtom.str "hello \"world\"", JsonAtom.str "b\\c",
            JsonAtom.str "x\ny\x01z"]) ∧
      json_parse (jsonify_string jsonExt "\x7b\"a\":1\x7d") = none := by
  have h := C18_round_trip_amended jsonExt (fun _ => rfl) (-12) "hello \"world\"" [5, -12, 0]
    ["a", "hello \"world\"", "b\\c", "x\ny\x01z"] "\x7b\"a\":1\x7d" (by decide)
    (by
      intro x hx
      simp only [List.mem_cons, List.mem_singleton, List.not_mem_nil, or_false] at hx
      rcases hx with h | h | h | h <;> (rw [h]; decide))
    (by decide)
  exact ⟨h.1, h.2.1, h.2.2.1, h.2.2.2.1, h.2.2.2.2.2.1⟩

end FtyCommonRest
